import Mathlib

/-!
Verification development for the grug execution engine.

The Rust sources embedded here:
* `crates/std/src/types/coin.rs` — the `Coins` map (a `BTreeMap<String, Uint128>`
  keyed by denomination), its mutation operations, and its `Display`/`FromStr`
  implementations;
* `crates/std/src/types/bank.rs` — the `TransferMsg` record;
* `crates/app/src/execute.rs` — the message dispatcher (`process_msg`) and the
  handlers `store_code`, `transfer`, `instantiate`, `execute` with their inner
  `_`-functions;
* `crates/app/src/execute/account.rs` — the transaction hooks `before_tx` /
  `after_tx`.

Rust strings are embedded as byte lists (`Str := List Nat`); `BTreeMap`s as
association lists sorted strictly by byte-wise lexicographic key order, with
the standard map operations; `&mut` state passing as explicit state in/state
out; fallible code as `Except`.  The sandbox runtime (wasm instances), the
cryptographic hash and the address-derivation primitive are external
collaborators and enter as parameters.  Calls into the sandbox are recorded in
an explicit action trace so that ordering properties ("funds are transferred
before the entry point runs") can be stated.
-/

namespace Grug

/-- Rust `String`, embedded as its UTF-8 byte list. -/
abbrev Str := List Nat

/-- Byte-wise lexicographic strict order on strings: the `Ord` instance of
Rust's `String`, which `BTreeMap<String, _>` sorts its keys by. -/
def strLt : Str → Str → Bool
  | [], [] => false
  | [], _ :: _ => true
  | _ :: _, [] => false
  | a :: as, b :: bs => if a < b then true else if b < a then false else strLt as bs

theorem strLt_irrefl (s : Str) : strLt s s = false := by
  induction s with
  | nil => rfl
  | cons a as ih => simp [strLt, ih]

theorem strLt_asymm {a b : Str} (h : strLt a b = true) : strLt b a = false := by
  induction a generalizing b with
  | nil =>
    cases b with
    | nil => simp [strLt] at h
    | cons x xs => rfl
  | cons x xs ih =>
    cases b with
    | nil => simp [strLt] at h
    | cons y ys =>
      by_cases hxy : x < y
      · simp [strLt, hxy, Nat.not_lt.mpr (Nat.le_of_lt hxy)]
      · by_cases hyx : y < x
        · simp [strLt, hxy, hyx] at h
        · have hxy' : x = y := Nat.le_antisymm (Nat.not_lt.mp hyx) (Nat.not_lt.mp hxy)
          subst hxy'
          simp [strLt] at h ⊢
          exact ih h

theorem strLt_total {a b : Str} (h₁ : strLt a b = false) (h₂ : strLt b a = false) :
    a = b := by
  induction a generalizing b with
  | nil =>
    cases b with
    | nil => rfl
    | cons y ys => simp [strLt] at h₁
  | cons x xs ih =>
    cases b with
    | nil => simp [strLt] at h₂
    | cons y ys =>
      by_cases hxy : x < y
      · simp [strLt, hxy] at h₁
      · by_cases hyx : y < x
        · simp [strLt, hyx] at h₂
        · have hxy' : x = y := Nat.le_antisymm (Nat.not_lt.mp hyx) (Nat.not_lt.mp hxy)
          subst hxy'
          simp [strLt] at h₁ h₂
          exact congrArg (x :: ·) (ih h₁ h₂)

theorem strLt_trans {a b c : Str} (h₁ : strLt a b = true) (h₂ : strLt b c = true) :
    strLt a c = true := by
  induction a generalizing b c with
  | nil =>
    cases c with
    | nil =>
      cases b with
      | nil => exact h₁
      | cons y ys => simp [strLt] at h₂
    | cons z zs => rfl
  | cons x xs ih =>
    cases b with
    | nil => simp [strLt] at h₁
    | cons y ys =>
      cases c with
      | nil => simp [strLt] at h₂
      | cons z zs =>
        by_cases hxy : x < y
        · by_cases hyz : y < z
          · simp [strLt, Nat.lt_trans hxy hyz]
          · by_cases hzy : z < y
            · simp [strLt, hyz, hzy] at h₂
            · have : y = z := Nat.le_antisymm (Nat.not_lt.mp hzy) (Nat.not_lt.mp hyz)
              subst this
              simp [strLt, hxy]
        · by_cases hyx : y < x
          · simp [strLt, hxy, hyx] at h₁
          · have : x = y := Nat.le_antisymm (Nat.not_lt.mp hyx) (Nat.not_lt.mp hxy)
            subst this
            simp [strLt] at h₁
            by_cases hyz : x < z
            · simp [strLt, hyz]
            · by_cases hzy : z < x
              · simp [strLt, hyz, hzy] at h₂
              · have : x = z := Nat.le_antisymm (Nat.not_lt.mp hzy) (Nat.not_lt.mp hyz)
                subst this
                simp [strLt] at h₂ ⊢
                exact ih h₁ h₂

-- ---------------------------------------------------------------------------
-- StdError and Uint128 arithmetic
-- ---------------------------------------------------------------------------

/-- The `cw_std` error variants reached by the embedded code.  The formatted
message strings the Rust errors carry are telemetry and are not modelled;
`denomNotFound` keeps its denom payload because `Coins::decrease_amount`
constructs it from its argument. -/
inductive StdError where
  | denomNotFound (denom : Str)
  | overflowAdd
  | overflowSub
  | parseCoins
  deriving DecidableEq, Repr

/-- `StdResult<T>` from `cw_std`. -/
abbrev StdResult (α : Type) := Except StdError α

/-- Modelled from the spec: `Coins` maps denominations to "a non-negative
fixed-precision amount" (`Uint128`, a 128-bit unsigned integer, whose source
is outside the embedded files).  Amounts are `Nat`s below `2 ^ 128`. -/
def UINT128_MAX : Nat := 2 ^ 128

/-- Modelled from the spec: `Uint128::checked_add`, failing with an arithmetic
error when the sum leaves the 128-bit range. -/
def checked_add (a b : Nat) : StdResult Nat :=
  if a + b < UINT128_MAX then .ok (a + b) else .error .overflowAdd

/-- Modelled from the spec: `Uint128::checked_sub`, failing with an arithmetic
error when the subtraction would go below zero ("decrease below zero is a hard
error (… arithmetic error if amount underflows)"). -/
def checked_sub (a b : Nat) : StdResult Nat :=
  if b ≤ a then .ok (a - b) else .error .overflowSub

-- ---------------------------------------------------------------------------
-- Coins: BTreeMap<String, Uint128> as a sorted association list
-- ---------------------------------------------------------------------------

/-- `Coins(BTreeMap<String, Uint128>)`: the map as an association list whose
keys are strictly increasing in `strLt` (the `BTreeMap` representation
invariant, `Coins.SortedMap` below). -/
abbrev Coins := List (Str × Nat)

namespace Coins

/-- `BTreeMap::get`. -/
def get (c : Coins) (denom : Str) : Option Nat :=
  match c with
  | [] => none
  | (k, v) :: rest => if denom = k then some v else get rest denom

/-- `BTreeMap::insert`: sorted insert, replacing the value when the key is
already present. -/
def insert (denom : Str) (amount : Nat) : Coins → Coins
  | [] => [(denom, amount)]
  | (k, v) :: rest =>
    if strLt denom k then (denom, amount) :: (k, v) :: rest
    else if strLt k denom then (k, v) :: insert denom amount rest
    else (denom, amount) :: rest

/-- `BTreeMap::remove`. -/
def remove (denom : Str) : Coins → Coins
  | [] => []
  | (k, v) :: rest => if k = denom then rest else (k, v) :: remove denom rest

/-- `Coins::empty`. -/
def empty : Coins := []

/-- `Coins::is_empty`. -/
def is_empty (c : Coins) : Bool := c.isEmpty

/-- `Coins::has`: "Return whether there is a non-zero amount of the given
denom" — implemented as `self.0.get(denom).is_some()`. -/
def has (c : Coins) (denom : Str) : Bool := (get c denom).isSome

/-- `Coins::amount_of`: the stored amount, zero when the denom is absent. -/
def amount_of (c : Coins) (denom : Str) : Nat := (get c denom).getD 0

/-- `Coins::increase_amount`.  The Rust method mutates `&mut self` and returns
`StdResult<()>`; the embedding returns the result paired with the final map.
When the denom is absent the given amount is inserted as a new record; when it
is present the stored amount becomes `checked_add` of the two, and on an
arithmetic error the early `?` return leaves the map untouched. -/
def increase_amount (c : Coins) (denom : Str) (by_ : Nat) : StdResult Unit × Coins :=
  match get c denom with
  | none => (.ok (), insert denom by_ c)
  | some amount =>
    match checked_add amount by_ with
    | .error e => (.error e, c)
    | .ok amount' => (.ok (), insert denom amount' c)

/-- `Coins::decrease_amount`.  Absent denom → `DenomNotFound`; `checked_sub`
failure propagates through `?` before any write, leaving the map untouched;
when the new amount is exactly zero the record is purged. -/
def decrease_amount (c : Coins) (denom : Str) (by_ : Nat) : StdResult Unit × Coins :=
  match get c denom with
  | none => (.error (.denomNotFound denom), c)
  | some amount =>
    match checked_sub amount by_ with
    | .error e => (.error e, c)
    | .ok amount' =>
      if amount' = 0 then (.ok (), remove denom c)
      else (.ok (), insert denom amount' c)

/-- The `BTreeMap` representation invariant: keys strictly increasing. -/
def SortedMap (c : Coins) : Prop :=
  c.Pairwise (fun p q => strLt p.1 q.1 = true)

end Coins

-- ---------------------------------------------------------------------------
-- Coins: Display and FromStr
-- ---------------------------------------------------------------------------

deriving instance DecidableEq for Except

/-- Fuel-driven digit extraction (structural recursion, so that concrete
values evaluate by `decide`). -/
def natDigitsAux : Nat → Nat → List Nat
  | _, 0 => []
  | 0, _ + 1 => []
  | fuel + 1, n + 1 => (n + 1) % 10 :: natDigitsAux fuel ((n + 1) / 10)

/-- The little-endian decimal digits of `n` (empty for `0`). -/
def natDigitsRev (n : Nat) : List Nat := natDigitsAux n n

/-- Modelled from the spec: `Uint128`'s `Display` (its source is outside the
embedded files) — the usual decimal rendering of an unsigned integer. -/
def u128_to_string (n : Nat) : Str :=
  if n = 0 then [48] else (natDigitsRev n).reverse.map (fun d => d + 48)

/-- `Vec::<String>::join(sep)`. -/
def joinSep (sep : Nat) : List Str → Str
  | [] => []
  | [s] => s
  | s :: t :: rest => s ++ sep :: joinSep sep (t :: rest)

/-- `impl fmt::Display for Coins`: each record rendered as `{denom}:{amount}`
(byte 58 is `:`), the records joined with `,` (byte 44) in map (key) order. -/
def Coins.display (c : Coins) : Str :=
  joinSep 44 (c.map (fun coin => coin.1 ++ 58 :: u128_to_string coin.2))

/-- `str::split(sep)`: never empty — the empty string yields `[""]`. -/
def splitOn (sep : Nat) : Str → List Str
  | [] => [[]]
  | c :: rest =>
    match splitOn sep rest with
    | [] => [[]]
    | s :: ss => if c = sep then [] :: s :: ss else (c :: s) :: ss

/-- `str::split_once(sep)`: split at the first occurrence of `sep`. -/
def split_once (sep : Nat) : Str → Option (Str × Str)
  | [] => none
  | c :: rest =>
    if c = sep then some ([], rest)
    else
      match split_once sep rest with
      | none => none
      | some (a, b) => some (c :: a, b)

/-- ASCII decimal digit bytes `'0'..'9'`. -/
def isDigitByte (c : Nat) : Bool := decide (48 ≤ c ∧ c ≤ 57)

/-- The value of a big-endian decimal digit-byte string. -/
def digitsVal (s : Str) : Nat := s.foldl (fun acc c => 10 * acc + (c - 48)) 0

/-- Modelled from the spec: `Uint128::from_str` (its source is outside the
embedded files) — parse a non-empty all-digit decimal string into the 128-bit
range, anything else is a parse failure. -/
def u128_from_str (s : Str) : Option Nat :=
  if s ≠ [] ∧ s.all isDigitByte then
    if digitsVal s < UINT128_MAX then some (digitsVal s) else none
  else none

/-- The loop body of `impl FromStr for Coins`: fold the `','`-separated pieces
into the accumulating map.  Each piece must split at `':'`, its amount must
parse, a zero amount and a duplicate denom are rejected. -/
def from_str_aux : List Str → Coins → StdResult Coins
  | [], m => .ok m
  | coin_str :: rest, m =>
    match split_once 58 coin_str with
    | none => .error .parseCoins
    | some (denom, amount_str) =>
      match u128_from_str amount_str with
      | none => .error .parseCoins
      | some amount =>
        if amount = 0 then .error .parseCoins
        else if (Coins.get m denom).isSome then .error .parseCoins
        else from_str_aux rest (Coins.insert denom amount m)

/-- `impl FromStr for Coins`. -/
def Coins.from_str (s : Str) : StdResult Coins :=
  from_str_aux (splitOn 44 s) []

-- ---------------------------------------------------------------------------
-- App layer: data model (crates/app/src/execute.rs, execute/account.rs)
-- ---------------------------------------------------------------------------

/-- Contract / account address.  Addresses are opaque fixed-width identifiers;
the embedding uses `Nat`. -/
abbrev Addr := Nat

/-- Code digest (`cw_std::Hash`), opaque. -/
abbrev Hash := Nat

/-- `cw_std::Binary`: a byte blob. -/
abbrev Binary := List Nat

structure Account where
  code_hash : Hash
  admin : Option Addr
  deriving DecidableEq, Repr

structure Config where
  bank : Addr
  deriving DecidableEq, Repr

structure BlockInfo where
  height : Nat
  timestamp : Nat
  hash : Binary
  deriving DecidableEq, Repr

/-- The ambient store.  The registries (`CONFIG`, `CHAIN_ID`, `ACCOUNTS`,
`CODES`) are global state under well-known key prefixes of one key-value
store; the embedding splits them into typed fields, plus the per-contract
namespaced data the contracts themselves read and write.  The Rust handle is
cheaply clonable with a shared backing, so every clone sees every write; the
embedding threads one `Store` value through instead. -/
structure Store where
  config : Option Config
  chain_id : Option Str
  accounts : Addr → Option Account
  codes : Hash → Option Binary
  contract_data : Addr → Str → Option Str

/-- `cw_std::TransferMsg` (crates/std/src/types/bank.rs): the normalized
effect of a transfer, passed to the bank contract's transfer entry point. -/
structure TransferMsg where
  from_ : Addr
  to_ : Addr
  coins : Coins
  deriving DecidableEq, Repr

/-- The `Context` structure as used by `crates/app/src/execute.rs`: block
info, target contract, optional caller, simulate flag. -/
structure Context where
  block : BlockInfo
  contract : Addr
  sender : Option Addr
  simulate : Option Bool
  deriving DecidableEq, Repr

/-- The `Context` structure as used by `crates/app/src/execute/account.rs`
(the transaction-hook call sites), with the per-call fields inlined. -/
structure HookContext where
  chain_id : Str
  block_height : Nat
  block_timestamp : Nat
  block_hash : Binary
  contract : Addr
  sender : Option Addr
  funds : Option Coins
  simulate : Option Bool
  submsg_result : Option Unit
  deriving DecidableEq, Repr

/-- A requested submessage.  The engine never inspects its payload (the
handlers only check whether the list is empty), so it is opaque here. -/
inductive SubMsg where
  | stub
  deriving DecidableEq, Repr

/-- A contract call response as consumed by `execute.rs` (`resp.msgs`). -/
structure Response where
  attributes : List (Str × Str)
  msgs : List SubMsg
  deriving DecidableEq, Repr

/-- A contract call response as consumed by `account.rs` (`resp.attributes`,
`resp.submsgs`). -/
structure HookResponse where
  attributes : List (Str × Str)
  submsgs : List SubMsg
  deriving DecidableEq, Repr

/-- An event: emitting contract, kind tag, ordered attributes. -/
structure Event where
  contract : Addr
  ty : Str
  attributes : List (Str × Str)
  deriving DecidableEq, Repr

/-- A transaction, as far as the embedded hook code inspects it: its sender. -/
structure Tx where
  sender : Addr
  deriving DecidableEq, Repr

/-- `cw_std::Message`: the state-transition message variants. -/
inductive Message where
  | transfer (to_ : Addr) (coins : Coins)
  | storeCode (wasm_byte_code : Binary)
  | instantiate (code_hash : Hash) (msg : Binary) (salt : Binary) (funds : Coins)
      (admin : Option Addr)
  | execute (contract : Addr) (msg : Binary) (funds : Coins)
  deriving DecidableEq, Repr

/-- The error type of the app layer (`anyhow::Result` / `AppResult`).  The
formatted messages are telemetry and are not modelled; `fatalAssert` stands
for a failed `debug_assert!` (a panic), and `vmFailure` covers the sandbox's
own host/guest error taxonomy, which is opaque at this layer. -/
inductive AppErr where
  | dataNotFound
  | codeExists (code_hash : Hash)
  | accountExists (address : Addr)
  | stdErr (e : StdError)
  | vmFailure (code : Nat)
  | fatalAssert
  deriving DecidableEq, Repr

/-- One observable interaction with the sandbox runtime: which entry point was
invoked, over which namespace-scoped storage view, with which bytecode,
context, argument, and which store the instance was given. -/
inductive Action where
  | callTransferAct (ns : List Binary) (wasm : Binary) (ctx : Context)
      (msg : TransferMsg) (st : Store)
  | callInstantiateAct (ns : List Binary) (wasm : Binary) (ctx : Context)
      (msg : Binary) (st : Store)
  | callExecuteAct (ns : List Binary) (wasm : Binary) (ctx : Context)
      (msg : Binary) (st : Store)
  | callBeforeTxAct (ns : List Binary) (wasm : Binary) (ctx : HookContext)
      (tx : Tx) (st : Store)
  | callAfterTxAct (ns : List Binary) (wasm : Binary) (ctx : HookContext)
      (tx : Tx) (st : Store)

/-- The sandbox runtime, an external collaborator: building an instance over a
namespace-scoped storage view and invoking one entry point is one atomic
function per entry point, taking the namespace segments, the bytecode, the
execution context, the entry-point argument and the store, and returning the
response together with the possibly mutated store, or an error (build failure,
host-boundary error, gas exhaustion, or guest-level rejection). -/
structure Vm where
  callTransfer : List Binary → Binary → Context → TransferMsg → Store →
    Except AppErr (Response × Store)
  callInstantiate : List Binary → Binary → Context → Binary → Store →
    Except AppErr (Response × Store)
  callExecute : List Binary → Binary → Context → Binary → Store →
    Except AppErr (Response × Store)
  callBeforeTx : List Binary → Binary → HookContext → Tx → Store →
    Except AppErr (HookResponse × Store)
  callAfterTx : List Binary → Binary → HookContext → Tx → Store →
    Except AppErr (HookResponse × Store)

-- ---------------------------------------------------------------------------
-- Registries (CONFIG, CHAIN_ID, ACCOUNTS, CODES) and namespacing
-- ---------------------------------------------------------------------------

/-- `CONFIG.load`: `Item::load` fails when nothing is stored. -/
def CONFIG_load (st : Store) : Except AppErr Config :=
  match st.config with
  | some cfg => .ok cfg
  | none => .error .dataNotFound

/-- `CHAIN_ID.load`. -/
def CHAIN_ID_load (st : Store) : Except AppErr Str :=
  match st.chain_id with
  | some id => .ok id
  | none => .error .dataNotFound

/-- `ACCOUNTS.load`: `Map::load` fails when the key is absent. -/
def ACCOUNTS_load (st : Store) (address : Addr) : Except AppErr Account :=
  match st.accounts address with
  | some account => .ok account
  | none => .error .dataNotFound

/-- `ACCOUNTS.update`: load the current value, run the action, and only on
success write the action's output back (no write happens when the action
errors). -/
def ACCOUNTS_update (st : Store) (address : Addr)
    (action : Option Account → Except AppErr (Option Account)) :
    Except AppErr Store :=
  match action (st.accounts address) with
  | .error e => .error e
  | .ok none =>
    .ok { st with accounts := fun a => if a = address then none else st.accounts a }
  | .ok (some account) =>
    .ok { st with accounts := fun a => if a = address then some account else st.accounts a }

/-- `CODES.has`. -/
def CODES_has (st : Store) (code_hash : Hash) : Bool :=
  (st.codes code_hash).isSome

/-- `CODES.load`. -/
def CODES_load (st : Store) (code_hash : Hash) : Except AppErr Binary :=
  match st.codes code_hash with
  | some wasm => .ok wasm
  | none => .error .dataNotFound

/-- `CODES.save`. -/
def CODES_save (st : Store) (code_hash : Hash) (wasm : Binary) : Store :=
  { st with codes := fun h => if h = code_hash then some wasm else st.codes h }

/-- Modelled from the spec: `CONTRACT_NAMESPACE`, the fixed "contract storage"
tag prepended to every contract's storage namespace (its value is outside the
embedded files; only its fixedness matters). -/
def CONTRACT_NAMESPACE : Binary := [119, 97, 115, 109]

/-- An address as the byte segment it contributes to a storage namespace. -/
def addrNs (a : Addr) : Binary := [a]

/-- `debug_assert!`: checked only when debug assertions are compiled in
(`dbg`); a failure is a panic, modelled as the fatal `AppErr.fatalAssert`. -/
def debug_assert (dbg : Bool) (cond : Bool) : Except AppErr Unit :=
  if dbg && !cond then .error .fatalAssert else .ok ()

-- ---------------------------------------------------------------------------
-- crates/app/src/execute.rs: the handlers
-- ---------------------------------------------------------------------------

/-- `_store_code`: compute the digest, reject when it is already present,
else persist; return the digest.  The Rust function takes `&mut dyn Storage`;
the embedding returns the final store alongside. -/
def _store_code (hashFn : Binary → Hash) (store : Store) (wasm_byte_code : Binary) :
    Except AppErr Hash × Store :=
  let code_hash := hashFn wasm_byte_code
  if CODES_has store code_hash then (.error (.codeExists code_hash), store)
  else (.ok code_hash, CODES_save store code_hash wasm_byte_code)

/-- `store_code`: the dispatcher-level wrapper — success is logged (`info!`)
and the digest dropped, failure is logged (`warn!`) and re-raised unchanged.
Logging is telemetry and not modelled. -/
def store_code (hashFn : Binary → Hash) (store : Store) (wasm_byte_code : Binary) :
    Except AppErr Unit × Store :=
  match _store_code hashFn store wasm_byte_code with
  | (.ok _code_hash, st) => (.ok (), st)
  | (.error err, st) => (.error err, st)

/-- `_transfer`: load the config, the bank contract's account and bytecode,
build an instance over the bank's namespaced store, and invoke the bank's
transfer entry point with a synthesized context (no sender, no simulate).
A `debug_assert!` rejects requested submessages. -/
def _transfer (vm : Vm) (dbg : Bool) (store : Store) (block : BlockInfo)
    (from_ to_ : Addr) (coins : Coins) :
    Except AppErr TransferMsg × Store × List Action :=
  match CONFIG_load store with
  | .error e => (.error e, store, [])
  | .ok cfg =>
    match ACCOUNTS_load store cfg.bank with
    | .error e => (.error e, store, [])
    | .ok account =>
      match CODES_load store account.code_hash with
      | .error e => (.error e, store, [])
      | .ok wasm_byte_code =>
        let ns := [CONTRACT_NAMESPACE, addrNs cfg.bank]
        let ctx : Context :=
          { block := block, contract := cfg.bank, sender := none, simulate := none }
        let msg : TransferMsg := { from_ := from_, to_ := to_, coins := coins }
        match vm.callTransfer ns wasm_byte_code ctx msg store with
        | .error e =>
          (.error e, store, [Action.callTransferAct ns wasm_byte_code ctx msg store])
        | .ok (resp, store') =>
          match debug_assert dbg resp.msgs.isEmpty with
          | .error e =>
            (.error e, store', [Action.callTransferAct ns wasm_byte_code ctx msg store])
          | .ok () =>
            (.ok msg, store', [Action.callTransferAct ns wasm_byte_code ctx msg store])

/-- `transfer`: the dispatcher-level wrapper around `_transfer` (logs and
re-raises, drops the returned `TransferMsg`). -/
def transfer (vm : Vm) (dbg : Bool) (store : Store) (block : BlockInfo)
    (from_ to_ : Addr) (coins : Coins) :
    Except AppErr Unit × Store × List Action :=
  match _transfer vm dbg store block from_ to_ coins with
  | (.ok _msg, st, tr) => (.ok (), st, tr)
  | (.error err, st, tr) => (.error err, st, tr)

/-- The `if !funds.is_empty() { _transfer(..)?; }` prologue shared by
`_instantiate` and `_execute`: when `funds` is non-empty, run `_transfer` from
`from_` to `to_` and propagate its failure; when empty, do nothing.  (Split
out of the two handlers for proof modularity; it is the literal first
statement of each.) -/
def transfer_if_funds (vm : Vm) (dbg : Bool) (store : Store) (block : BlockInfo)
    (from_ to_ : Addr) (funds : Coins) : Except AppErr Unit × Store × List Action :=
  if Coins.is_empty funds then (.ok (), store, [])
  else
    match _transfer vm dbg store block from_ to_ funds with
    | (.error e, st, tr) => (.error e, st, tr)
    | (.ok _m, st, tr) => (.ok (), st, tr)

/-- The tail of `_instantiate` after the funds step: build the instance over
the new contract's namespaced view of `store₂` and invoke its instantiate
entry point (`tr` is the trace accumulated by the funds step). -/
def _instantiate_call (vm : Vm) (dbg : Bool) (store₂ : Store) (block : BlockInfo)
    (address sender : Addr) (wasm_byte_code : Binary) (msg : Binary)
    (tr : List Action) : Except AppErr Addr × Store × List Action :=
  let ns := [CONTRACT_NAMESPACE, addrNs address]
  let ctx : Context :=
    { block := block, contract := address, sender := some sender, simulate := none }
  match vm.callInstantiate ns wasm_byte_code ctx msg store₂ with
  | .error e =>
    (.error e, store₂, tr ++ [Action.callInstantiateAct ns wasm_byte_code ctx msg store₂])
  | .ok (resp, store₃) =>
    match debug_assert dbg resp.msgs.isEmpty with
    | .error e =>
      (.error e, store₃, tr ++ [Action.callInstantiateAct ns wasm_byte_code ctx msg store₂])
    | .ok () =>
      (.ok ctx.contract, store₃,
        tr ++ [Action.callInstantiateAct ns wasm_byte_code ctx msg store₂])

/-- `_instantiate`: load the bytecode, derive the new contract's address from
(deployer, code digest, salt), create the account record — rejecting when an
account already exists at that address —, transfer the attached funds when
non-empty, then build an instance over the new contract's namespaced store and
invoke its instantiate entry point. -/
def _instantiate (vm : Vm) (dbg : Bool) (addrCompute : Addr → Hash → Binary → Addr)
    (store : Store) (block : BlockInfo) (sender : Addr) (code_hash : Hash)
    (msg : Binary) (salt : Binary) (funds : Coins) (admin : Option Addr) :
    Except AppErr Addr × Store × List Action :=
  match CODES_load store code_hash with
  | .error e => (.error e, store, [])
  | .ok wasm_byte_code =>
    let address := addrCompute sender code_hash salt
    match ACCOUNTS_update store address (fun maybe_acct =>
        match maybe_acct with
        | some _ => .error (.accountExists address)
        | none => .ok (some { code_hash := code_hash, admin := admin })) with
    | .error e => (.error e, store, [])
    | .ok store₁ =>
      match transfer_if_funds vm dbg store₁ block sender address funds with
      | (.error e, st, tr) => (.error e, st, tr)
      | (.ok _, store₂, tr) =>
        _instantiate_call vm dbg store₂ block address sender wasm_byte_code msg tr

/-- `instantiate`: the dispatcher-level wrapper around `_instantiate` (logs
and re-raises, drops the returned address). -/
def instantiate (vm : Vm) (dbg : Bool) (addrCompute : Addr → Hash → Binary → Addr)
    (store : Store) (block : BlockInfo) (sender : Addr) (code_hash : Hash)
    (msg : Binary) (salt : Binary) (funds : Coins) (admin : Option Addr) :
    Except AppErr Unit × Store × List Action :=
  match _instantiate vm dbg addrCompute store block sender code_hash msg salt funds admin with
  | (.ok _address, st, tr) => (.ok (), st, tr)
  | (.error err, st, tr) => (.error err, st, tr)

/-- The tail of `_execute` after the funds step: load the target contract's
account and bytecode from `store₁`, build an instance over the target's
namespaced view, and invoke its execute entry point (`tr` is the trace
accumulated by the funds step). -/
def _execute_call (vm : Vm) (dbg : Bool) (store₁ : Store) (block : BlockInfo)
    (contract sender : Addr) (msg : Binary) (tr : List Action) :
    Except AppErr Unit × Store × List Action :=
  match ACCOUNTS_load store₁ contract with
  | .error e => (.error e, store₁, tr)
  | .ok account =>
    match CODES_load store₁ account.code_hash with
    | .error e => (.error e, store₁, tr)
    | .ok wasm_byte_code =>
      let ns := [CONTRACT_NAMESPACE, addrNs contract]
      let ctx : Context :=
        { block := block, contract := contract, sender := some sender, simulate := none }
      match vm.callExecute ns wasm_byte_code ctx msg store₁ with
      | .error e =>
        (.error e, store₁, tr ++ [Action.callExecuteAct ns wasm_byte_code ctx msg store₁])
      | .ok (resp, store₂) =>
        match debug_assert dbg resp.msgs.isEmpty with
        | .error e =>
          (.error e, store₂, tr ++ [Action.callExecuteAct ns wasm_byte_code ctx msg store₁])
        | .ok () =>
          (.ok (), store₂, tr ++ [Action.callExecuteAct ns wasm_byte_code ctx msg store₁])

/-- `_execute`: transfer the attached funds when non-empty, load the target
contract's account and bytecode, build an instance over the target's
namespaced store, and invoke its execute entry point with the caller as
sender. -/
def _execute (vm : Vm) (dbg : Bool) (store : Store) (block : BlockInfo)
    (contract sender : Addr) (msg : Binary) (funds : Coins) :
    Except AppErr Unit × Store × List Action :=
  match transfer_if_funds vm dbg store block sender contract funds with
  | (.error e, st, tr) => (.error e, st, tr)
  | (.ok _, store₁, tr) =>
    _execute_call vm dbg store₁ block contract sender msg tr

/-- `execute`: the dispatcher-level wrapper around `_execute` (logs and
re-raises).  NOTE the argument order, faithful to the source: the wrapper's
signature is `(store, block, contract, sender, …)` while its body calls
`_execute(store, block, sender, contract, …)` — its `sender` binder is passed
into `_execute`'s `contract` slot and vice versa. -/
def execute (vm : Vm) (dbg : Bool) (store : Store) (block : BlockInfo)
    (contract sender : Addr) (msg : Binary) (funds : Coins) :
    Except AppErr Unit × Store × List Action :=
  match _execute vm dbg store block sender contract msg funds with
  | (.ok (), st, tr) => (.ok (), st, tr)
  | (.error err, st, tr) => (.error err, st, tr)

/-- `process_msg`: the top-level dispatcher.  NOTE: faithful to the source,
the `Execute` arm calls `execute(store, block, sender, &contract, msg, funds)`
— the message's sender lands in `execute`'s `contract` binder and the target
contract in its `sender` binder; the swap in `execute`'s own body cancels this
out. -/
def process_msg (vm : Vm) (dbg : Bool) (addrCompute : Addr → Hash → Binary → Addr)
    (hashFn : Binary → Hash) (store : Store) (block : BlockInfo) (sender : Addr)
    (msg : Message) : Except AppErr Unit × Store × List Action :=
  match msg with
  | .transfer to_ coins => transfer vm dbg store block sender to_ coins
  | .storeCode wasm_byte_code =>
    match store_code hashFn store wasm_byte_code with
    | (r, st) => (r, st, [])
  | .instantiate code_hash m salt funds admin =>
    instantiate vm dbg addrCompute store block sender code_hash m salt funds admin
  | .execute contract m funds => execute vm dbg store block sender contract m funds

-- ---------------------------------------------------------------------------
-- crates/app/src/execute/account.rs: the transaction hooks
-- ---------------------------------------------------------------------------

/-- Modelled from the spec: `new_before_tx_event` (defined outside the
embedded files) — "Each hook call produces one synthesized event tagged with
the hook kind and the sender address".  The kind tag is the byte string
`"before_tx"`. -/
def new_before_tx_event (contract : Addr) (attributes : List (Str × Str)) : Event :=
  { contract := contract, ty := [98, 101, 102, 111, 114, 101, 95, 116, 120],
    attributes := attributes }

/-- Modelled from the spec: `new_after_tx_event`, symmetric to
`new_before_tx_event`; the kind tag is the byte string `"after_tx"`. -/
def new_after_tx_event (contract : Addr) (attributes : List (Str × Str)) : Event :=
  { contract := contract, ty := [97, 102, 116, 101, 114, 95, 116, 120],
    attributes := attributes }

/-- Modelled from the spec: `handle_submessages` (defined outside the embedded
files).  On an empty submessage list no dispatch happens and no events are
produced; the present engine treats a non-empty list as an unimplemented
internal invariant violation. -/
def handle_submessages (submsgs : List SubMsg) : Except AppErr (List Event) :=
  match submsgs with
  | [] => .ok []
  | _ :: _ => .error .fatalAssert

/-- `_before_tx`: load the chain id and the sender account's bytecode, build
an instance over the sender's namespaced store, invoke the `before_tx` entry
point with a context carrying no caller, no funds and `simulate = Some(false)`,
then emit the hook event followed by any submessage-derived events. -/
def _before_tx (vm : Vm) (store : Store) (block : BlockInfo) (tx : Tx) :
    Except AppErr (List Event) × Store × List Action :=
  match CHAIN_ID_load store with
  | .error e => (.error e, store, [])
  | .ok chain_id =>
    match ACCOUNTS_load store tx.sender with
    | .error e => (.error e, store, [])
    | .ok account =>
      match CODES_load store account.code_hash with
      | .error e => (.error e, store, [])
      | .ok wasm_byte_code =>
        let ns := [CONTRACT_NAMESPACE, addrNs tx.sender]
        let ctx : HookContext :=
          { chain_id := chain_id, block_height := block.height,
            block_timestamp := block.timestamp, block_hash := block.hash,
            contract := tx.sender, sender := none, funds := none,
            simulate := some false, submsg_result := none }
        match vm.callBeforeTx ns wasm_byte_code ctx tx store with
        | .error e =>
          (.error e, store, [Action.callBeforeTxAct ns wasm_byte_code ctx tx store])
        | .ok (resp, store') =>
          match handle_submessages resp.submsgs with
          | .error e =>
            (.error e, store', [Action.callBeforeTxAct ns wasm_byte_code ctx tx store])
          | .ok sub_events =>
            (.ok (new_before_tx_event ctx.contract resp.attributes :: sub_events),
              store', [Action.callBeforeTxAct ns wasm_byte_code ctx tx store])

/-- `before_tx`: the wrapper around `_before_tx` (logs and re-raises). -/
def before_tx (vm : Vm) (store : Store) (block : BlockInfo) (tx : Tx) :
    Except AppErr (List Event) × Store × List Action :=
  match _before_tx vm store block tx with
  | (.ok events, st, tr) => (.ok events, st, tr)
  | (.error err, st, tr) => (.error err, st, tr)

/-- `_after_tx`: symmetric to `_before_tx`, invoking the `after_tx` entry
point and emitting the `after_tx` hook event. -/
def _after_tx (vm : Vm) (store : Store) (block : BlockInfo) (tx : Tx) :
    Except AppErr (List Event) × Store × List Action :=
  match CHAIN_ID_load store with
  | .error e => (.error e, store, [])
  | .ok chain_id =>
    match ACCOUNTS_load store tx.sender with
    | .error e => (.error e, store, [])
    | .ok account =>
      match CODES_load store account.code_hash with
      | .error e => (.error e, store, [])
      | .ok wasm_byte_code =>
        let ns := [CONTRACT_NAMESPACE, addrNs tx.sender]
        let ctx : HookContext :=
          { chain_id := chain_id, block_height := block.height,
            block_timestamp := block.timestamp, block_hash := block.hash,
            contract := tx.sender, sender := none, funds := none,
            simulate := some false, submsg_result := none }
        match vm.callAfterTx ns wasm_byte_code ctx tx store with
        | .error e =>
          (.error e, store, [Action.callAfterTxAct ns wasm_byte_code ctx tx store])
        | .ok (resp, store') =>
          match handle_submessages resp.submsgs with
          | .error e =>
            (.error e, store', [Action.callAfterTxAct ns wasm_byte_code ctx tx store])
          | .ok sub_events =>
            (.ok (new_after_tx_event ctx.contract resp.attributes :: sub_events),
              store', [Action.callAfterTxAct ns wasm_byte_code ctx tx store])

/-- `after_tx`: the wrapper around `_after_tx` (logs and re-raises). -/
def after_tx (vm : Vm) (store : Store) (block : BlockInfo) (tx : Tx) :
    Except AppErr (List Event) × Store × List Action :=
  match _after_tx vm store block tx with
  | (.ok events, st, tr) => (.ok events, st, tr)
  | (.error err, st, tr) => (.error err, st, tr)

-- ---------------------------------------------------------------------------
-- Map lemmas
-- ---------------------------------------------------------------------------

instance (c : Coins) : Decidable (Coins.SortedMap c) :=
  inferInstanceAs
    (Decidable (List.Pairwise (fun p q : Str × Nat => strLt p.1 q.1 = true) c))

theorem Coins.get_none_of_all_gt {c : Coins} {denom : Str}
    (h : ∀ p ∈ c, strLt denom p.1 = true) : Coins.get c denom = none := by
  induction c with
  | nil => rfl
  | cons kv rest ih =>
    obtain ⟨k, v⟩ := kv
    have hk : strLt denom k = true := h (k, v) (List.mem_cons_self _ _)
    have hne : denom ≠ k := by
      intro heq
      rw [heq, strLt_irrefl] at hk
      exact Bool.false_ne_true hk
    simp only [Coins.get, if_neg hne]
    exact ih fun p hp => h p (List.mem_cons_of_mem _ hp)

theorem Coins.get_remove_self {c : Coins} (hs : Coins.SortedMap c) (denom : Str) :
    Coins.get (Coins.remove denom c) denom = none := by
  induction c with
  | nil => rfl
  | cons kv rest ih =>
    obtain ⟨k, v⟩ := kv
    rw [Coins.SortedMap, List.pairwise_cons] at hs
    obtain ⟨hhead, htail⟩ := hs
    by_cases hk : k = denom
    · subst hk
      simp only [Coins.remove, if_pos rfl]
      exact Coins.get_none_of_all_gt hhead
    · simp only [Coins.remove, if_neg hk]
      have hne : denom ≠ k := fun h => hk h.symm
      simp only [Coins.get, if_neg hne]
      exact ih htail

-- ---------------------------------------------------------------------------
-- Concrete fixtures used by witnesses and counterexamples
-- ---------------------------------------------------------------------------

/-- A bank account registered in `sampleStore` at address 1 with code 10. -/
def bankAcct : Account := { code_hash := 10, admin := none }

/-- A target contract account registered in `sampleStore` at address 2. -/
def targetAcct : Account := { code_hash := 11, admin := none }

/-- A concrete store with a config, chain id, a bank and a target contract. -/
def sampleStore : Store :=
  { config := some { bank := 1 },
    chain_id := some [103],
    accounts := fun a => if a = 1 then some bankAcct else
      if a = 2 then some targetAcct else none,
    codes := fun h => if h = 10 then some [1] else if h = 11 then some [2] else none,
    contract_data := fun _ _ => none }

/-- A sandbox whose every entry point succeeds with an empty response and an
unchanged store. -/
def okVm : Vm :=
  { callTransfer := fun _ _ _ _ st => .ok ({ attributes := [], msgs := [] }, st),
    callInstantiate := fun _ _ _ _ st => .ok ({ attributes := [], msgs := [] }, st),
    callExecute := fun _ _ _ _ st => .ok ({ attributes := [], msgs := [] }, st),
    callBeforeTx := fun _ _ _ _ st => .ok ({ attributes := [], submsgs := [] }, st),
    callAfterTx := fun _ _ _ _ st => .ok ({ attributes := [], submsgs := [] }, st) }

/-- A sandbox whose every entry point succeeds but requests one submessage. -/
def submsgVm : Vm :=
  { callTransfer := fun _ _ _ _ st => .ok ({ attributes := [], msgs := [.stub] }, st),
    callInstantiate := fun _ _ _ _ st => .ok ({ attributes := [], msgs := [.stub] }, st),
    callExecute := fun _ _ _ _ st => .ok ({ attributes := [], msgs := [.stub] }, st),
    callBeforeTx := fun _ _ _ _ st => .ok ({ attributes := [], submsgs := [.stub] }, st),
    callAfterTx := fun _ _ _ _ st => .ok ({ attributes := [], submsgs := [.stub] }, st) }

/-- A concrete block. -/
def sampleBlock : BlockInfo := { height := 1, timestamp := 0, hash := [] }

-- ---------------------------------------------------------------------------
-- C1
-- ---------------------------------------------------------------------------

/-- C1: the claimed invariant — "no denomination maps to a zero amount after
any finite sequence of increase/decrease operations" — fails on the code:
starting from the empty `Coins`, `increase_amount("uatom", 0)` takes the
absent-denom branch and inserts the given amount unchecked, storing a
zero-amount record.  On the resulting value `has` returns `true` and
`amount_of` returns zero while the denom is present, contradicting the
invariant (the code's own comments say zero-amount entries are never stored).
`[117, 97, 116, 111, 109]` is the byte string `"uatom"`. -/
theorem increase_amount_zero_stores_zero_record :
    Coins.increase_amount Coins.empty [117, 97, 116, 111, 109] 0 =
      (.ok (), [([117, 97, 116, 111, 109], 0)]) ∧
    Coins.has [([117, 97, 116, 111, 109], 0)] [117, 97, 116, 111, 109] = true ∧
    Coins.amount_of [([117, 97, 116, 111, 109], 0)] [117, 97, 116, 111, 109] = 0 := by
  decide

-- ---------------------------------------------------------------------------
-- C2
-- ---------------------------------------------------------------------------

/-- C2: `decrease_amount` fails with `DenomNotFound` on an absent denom and
with the arithmetic underflow error when the decrease exceeds the stored
amount; every failure leaves the map exactly unchanged; and a success that
reaches exactly zero removes the record for the denom. -/
theorem decrease_amount_spec (c : Coins) (hs : Coins.SortedMap c) (denom : Str)
    (n : Nat) :
    (Coins.get c denom = none →
      Coins.decrease_amount c denom n = (.error (.denomNotFound denom), c)) ∧
    (∀ a, Coins.get c denom = some a → a < n →
      Coins.decrease_amount c denom n = (.error .overflowSub, c)) ∧
    (∀ e c', Coins.decrease_amount c denom n = (.error e, c') → c' = c) ∧
    (∀ a, Coins.get c denom = some a → a = n →
      Coins.decrease_amount c denom n = (.ok (), Coins.remove denom c) ∧
      Coins.get (Coins.remove denom c) denom = none) := by
  refine ⟨?_, ?_, ?_, ?_⟩
  · intro h
    simp [Coins.decrease_amount, h]
  · intro a ha hlt
    have : ¬ n ≤ a := Nat.not_le.mpr hlt
    simp [Coins.decrease_amount, ha, checked_sub, this]
  · intro e c' h
    cases hg : Coins.get c denom with
    | none =>
      simp only [Coins.decrease_amount, hg] at h
      exact (congrArg Prod.snd h).symm
    | some a =>
      cases hcs : checked_sub a n with
      | error e' =>
        simp only [Coins.decrease_amount, hg, hcs] at h
        exact (congrArg Prod.snd h).symm
      | ok a' =>
        simp only [Coins.decrease_amount, hg, hcs] at h
        by_cases hz : a' = 0
        · simp [hz] at h
        · simp [hz] at h
  · intro a ha heq
    subst heq
    have hcs : checked_sub a a = .ok 0 := by simp [checked_sub]
    refine ⟨?_, Coins.get_remove_self hs denom⟩
    simp [Coins.decrease_amount, ha, hcs]

/-- C2 at a concrete input: decreasing the single record `("ab", 5)` by 5
succeeds and removes the record. -/
theorem decrease_amount_spec_witness :
    Coins.decrease_amount [([97, 98], 5)] [97, 98] 5 =
      (.ok (), Coins.remove [97, 98] [([97, 98], 5)]) ∧
    Coins.get (Coins.remove [97, 98] [([97, 98], 5)]) [97, 98] = none :=
  (decrease_amount_spec [([97, 98], 5)] (by decide) [97, 98] 5).2.2.2 5 (by decide) rfl

-- ---------------------------------------------------------------------------
-- C4
-- ---------------------------------------------------------------------------

/-- A store with nothing registered. -/
def emptyStore : Store :=
  { config := none, chain_id := none, accounts := fun _ => none,
    codes := fun _ => none, contract_data := fun _ _ => none }

/-- C4: storing a bytecode blob whose digest is not yet present succeeds,
persists the blob under its digest so that `CODES.load` returns exactly the
blob, and storing the same blob a second time fails with the already-exists
error and leaves the store — in particular the stored blob — unchanged.
When the digest is already present the store fails and mutates nothing. -/
theorem store_code_spec (hashFn : Binary → Hash) (st : Store) (B : Binary) :
    (st.codes (hashFn B) = none →
      (_store_code hashFn st B).1 = .ok (hashFn B) ∧
      CODES_load (_store_code hashFn st B).2 (hashFn B) = .ok B ∧
      _store_code hashFn (_store_code hashFn st B).2 B =
        (.error (.codeExists (hashFn B)), (_store_code hashFn st B).2)) ∧
    (∀ b₀, st.codes (hashFn B) = some b₀ →
      _store_code hashFn st B = (.error (.codeExists (hashFn B)), st)) := by
  constructor
  · intro h
    have hhas : CODES_has st (hashFn B) = false := by
      simp [CODES_has, h]
    refine ⟨?_, ?_, ?_⟩
    · simp [_store_code, hhas]
    · simp [_store_code, hhas, CODES_save, CODES_load]
    · have h2 : (_store_code hashFn st B).2 = CODES_save st (hashFn B) B := by
        simp [_store_code, hhas]
      rw [h2]
      have hhas2 : CODES_has (CODES_save st (hashFn B) B) (hashFn B) = true := by
        simp [CODES_has, CODES_save]
      simp [_store_code, hhas2]
  · intro b₀ h
    have hhas : CODES_has st (hashFn B) = true := by
      simp [CODES_has, h]
    simp [_store_code, hhas]

/-- C4 at a concrete input: storing the blob `[7, 7]` in the empty store under
the digest function "length". -/
theorem store_code_spec_witness :
    (_store_code (fun b => b.length) emptyStore [7, 7]).1 = .ok 2 ∧
    CODES_load (_store_code (fun b => b.length) emptyStore [7, 7]).2 2 = .ok [7, 7] ∧
    _store_code (fun b => b.length) (_store_code (fun b => b.length) emptyStore [7, 7]).2
        [7, 7] =
      (.error (.codeExists 2), (_store_code (fun b => b.length) emptyStore [7, 7]).2) :=
  (store_code_spec (fun b => b.length) emptyStore [7, 7]).1 rfl

-- ---------------------------------------------------------------------------
-- C5
-- ---------------------------------------------------------------------------

/-- C5: instantiating at a derived address where an account already exists
fails with the already-exists error, performs no transfer and no entry-point
call (empty action trace), and leaves the store — in particular the existing
account record with its `code_hash` and `admin` fields — exactly unchanged. -/
theorem instantiate_no_overwrite (vm : Vm) (dbg : Bool)
    (ac : Addr → Hash → Binary → Addr) (st : Store) (block : BlockInfo)
    (sender : Addr) (code_hash : Hash) (m salt : Binary) (funds : Coins)
    (admin : Option Addr) (wasm : Binary) (acct : Account)
    (hcode : st.codes code_hash = some wasm)
    (hacct : st.accounts (ac sender code_hash salt) = some acct) :
    _instantiate vm dbg ac st block sender code_hash m salt funds admin =
      (.error (.accountExists (ac sender code_hash salt)), st, []) ∧
    ((_instantiate vm dbg ac st block sender code_hash m salt funds admin).2.1).accounts
        (ac sender code_hash salt) = some acct := by
  have h1 : _instantiate vm dbg ac st block sender code_hash m salt funds admin =
      (.error (.accountExists (ac sender code_hash salt)), st, []) := by
    simp [_instantiate, CODES_load, hcode, ACCOUNTS_update, hacct]
  exact ⟨h1, by rw [h1]; exact hacct⟩

/-- C5 at a concrete input: re-instantiating at address 2 of `sampleStore`,
where `targetAcct` already lives, fails and leaves the account intact. -/
theorem instantiate_no_overwrite_witness :
    _instantiate okVm true (fun _ _ _ => 2) sampleStore sampleBlock 7 10 [] [] [] none =
      (.error (.accountExists 2), sampleStore, []) ∧
    ((_instantiate okVm true (fun _ _ _ => 2) sampleStore sampleBlock 7 10 [] [] []
        none).2.1).accounts 2 = some targetAcct :=
  instantiate_no_overwrite okVm true (fun _ _ _ => 2) sampleStore sampleBlock 7 10 []
    [] [] none [1] targetAcct rfl rfl

-- ---------------------------------------------------------------------------
-- Shape lemmas about _transfer's trace and result
-- ---------------------------------------------------------------------------

/-- `_transfer` records at most one action: the bank `callTransfer`, over the
input store, with the transfer message built from its arguments. -/
theorem transfer_trace_shape (vm : Vm) (dbg : Bool) (st : Store) (block : BlockInfo)
    (f t : Addr) (c : Coins) :
    (_transfer vm dbg st block f t c).2.2 = [] ∨
    ∃ ns w ctx, (_transfer vm dbg st block f t c).2.2 =
      [Action.callTransferAct ns w ctx { from_ := f, to_ := t, coins := c } st] := by
  simp only [_transfer]
  split
  · exact Or.inl rfl
  · split
    · exact Or.inl rfl
    · split
      · exact Or.inl rfl
      · split
        · exact Or.inr ⟨_, _, _, rfl⟩
        · split
          · exact Or.inr ⟨_, _, _, rfl⟩
          · exact Or.inr ⟨_, _, _, rfl⟩

/-- A successful `_transfer` returned the message built from its arguments,
made exactly one bank `callTransfer` over the input store whose output store
it passes on, and its response passed the submessage assertion. -/
theorem transfer_ok_shape (vm : Vm) (dbg : Bool) (st : Store) (block : BlockInfo)
    (f t : Addr) (c : Coins) {m : TransferMsg} {st' : Store} {tr : List Action}
    (h : _transfer vm dbg st block f t c = (.ok m, st', tr)) :
    m = { from_ := f, to_ := t, coins := c } ∧
    ∃ ns w ctx resp, tr = [Action.callTransferAct ns w ctx m st] ∧
      vm.callTransfer ns w ctx m st = .ok (resp, st') ∧
      debug_assert dbg resp.msgs.isEmpty = .ok () := by
  simp only [_transfer] at h
  split at h
  · simp at h
  · split at h
    · simp at h
    · split at h
      · simp at h
      · split at h
        · simp at h
        · split at h
          · simp at h
          · rename_i cfg _ account _ wasm _ resp stv hv u hd
            simp only [Prod.mk.injEq, Except.ok.injEq] at h
            obtain ⟨hm, hst, htr⟩ := h
            subst hm
            subst hst
            subst htr
            exact ⟨rfl, _, _, _, resp, rfl, hv, hd⟩

/-- Inversion: a successful `CONFIG.load` read the stored config. -/
theorem CONFIG_load_ok {st : Store} {cfg : Config}
    (h : CONFIG_load st = .ok cfg) : st.config = some cfg := by
  unfold CONFIG_load at h
  cases hx : st.config <;> rw [hx] at h <;> simp at h
  rw [h]

/-- Inversion: a successful `CHAIN_ID.load` read the stored chain id. -/
theorem CHAIN_ID_load_ok {st : Store} {id : Str}
    (h : CHAIN_ID_load st = .ok id) : st.chain_id = some id := by
  unfold CHAIN_ID_load at h
  cases hx : st.chain_id <;> rw [hx] at h <;> simp at h
  rw [h]

/-- Inversion: a successful `ACCOUNTS.load` read the stored account. -/
theorem ACCOUNTS_load_ok {st : Store} {a : Addr} {account : Account}
    (h : ACCOUNTS_load st a = .ok account) : st.accounts a = some account := by
  unfold ACCOUNTS_load at h
  cases hx : st.accounts a <;> rw [hx] at h <;> simp at h
  rw [h]

/-- Inversion: a successful `CODES.load` read the stored bytecode. -/
theorem CODES_load_ok {st : Store} {h' : Hash} {wasm : Binary}
    (h : CODES_load st h' = .ok wasm) : st.codes h' = some wasm := by
  unfold CODES_load at h
  cases hx : st.codes h' <;> rw [hx] at h <;> simp at h
  rw [h]

/-- With empty funds the funds prologue is a no-op. -/
theorem transfer_if_funds_empty (vm : Vm) (dbg : Bool) (st : Store)
    (block : BlockInfo) (f t : Addr) (funds : Coins)
    (he : Coins.is_empty funds = true) :
    transfer_if_funds vm dbg st block f t funds = (.ok (), st, []) := by
  simp [transfer_if_funds, he]

/-- A successful funds prologue with non-empty funds came from a successful
`_transfer` with the same store and trace. -/
theorem transfer_if_funds_ok (vm : Vm) (dbg : Bool) (st : Store)
    (block : BlockInfo) (f t : Addr) (funds : Coins) {st₁ : Store}
    {tr : List Action} (hne : Coins.is_empty funds = false)
    (h : transfer_if_funds vm dbg st block f t funds = (.ok (), st₁, tr)) :
    ∃ mT, _transfer vm dbg st block f t funds = (.ok mT, st₁, tr) := by
  rcases ht : _transfer vm dbg st block f t funds with ⟨rt, st', tr'⟩
  cases rt with
  | error e =>
    have hval : transfer_if_funds vm dbg st block f t funds = (.error e, st', tr') := by
      simp [transfer_if_funds, hne, ht]
    rw [h] at hval
    simp at hval
  | ok mT =>
    have hval : transfer_if_funds vm dbg st block f t funds = (.ok (), st', tr') := by
      simp [transfer_if_funds, hne, ht]
    rw [h] at hval
    simp only [Prod.mk.injEq, Except.ok.injEq, true_and] at hval
    obtain ⟨hst, htr⟩ := hval
    subst hst
    subst htr
    exact ⟨mT, rfl⟩

/-- A failed funds prologue is a failed `_transfer`, propagated verbatim. -/
theorem transfer_if_funds_err (vm : Vm) (dbg : Bool) (st : Store)
    (block : BlockInfo) (f t : Addr) (funds : Coins) {e : AppErr} {st₁ : Store}
    {tr : List Action}
    (h : transfer_if_funds vm dbg st block f t funds = (.error e, st₁, tr)) :
    Coins.is_empty funds = false ∧
    _transfer vm dbg st block f t funds = (.error e, st₁, tr) := by
  cases hne : Coins.is_empty funds
  case true =>
    rw [transfer_if_funds_empty vm dbg st block f t funds hne] at h
    simp at h
  case false =>
    refine ⟨rfl, ?_⟩
    rcases ht : _transfer vm dbg st block f t funds with ⟨rt, st', tr'⟩
    cases rt with
    | error e' =>
      have hval : transfer_if_funds vm dbg st block f t funds = (.error e', st', tr') := by
        simp [transfer_if_funds, hne, ht]
      rw [h] at hval
      simp only [Prod.mk.injEq, Except.error.injEq] at hval
      obtain ⟨he', hst, htr⟩ := hval
      rw [he', hst, htr]
    | ok mT =>
      have hval : transfer_if_funds vm dbg st block f t funds = (.ok (), st', tr') := by
        simp [transfer_if_funds, hne, ht]
      rw [h] at hval
      simp at hval

/-- `_execute` is the funds prologue followed (on success) by the call tail. -/
theorem execute_stage_shape (vm : Vm) (dbg : Bool) (st : Store) (block : BlockInfo)
    (contract sender : Addr) (m : Binary) (funds : Coins) :
    (∃ e st' tr,
      transfer_if_funds vm dbg st block sender contract funds = (.error e, st', tr) ∧
      _execute vm dbg st block contract sender m funds = (.error e, st', tr)) ∨
    (∃ st₁ tr,
      transfer_if_funds vm dbg st block sender contract funds = (.ok (), st₁, tr) ∧
      _execute vm dbg st block contract sender m funds =
        _execute_call vm dbg st₁ block contract sender m tr) := by
  rcases hp : transfer_if_funds vm dbg st block sender contract funds with ⟨rp, stp, trp⟩
  cases rp with
  | error e => exact Or.inl ⟨e, stp, trp, rfl, by simp [_execute, hp]⟩
  | ok u =>
    cases u
    exact Or.inr ⟨stp, trp, rfl, by simp [_execute, hp]⟩

/-- The call tail of `_execute` appends at most one action — a
`callExecuteAct` over the store it was given, recording the loaded account's
bytecode and the target-contract context. -/
theorem execute_call_trace (vm : Vm) (dbg : Bool) (store₁ : Store)
    (block : BlockInfo) (contract sender : Addr) (msg : Binary) (tr : List Action) :
    ∃ tail,
      (_execute_call vm dbg store₁ block contract sender msg tr).2.2 = tr ++ tail ∧
      (tail = [] ∨
        ∃ account wasm,
          ACCOUNTS_load store₁ contract = .ok account ∧
          CODES_load store₁ account.code_hash = .ok wasm ∧
          tail = [Action.callExecuteAct [CONTRACT_NAMESPACE, addrNs contract] wasm
            { block := block, contract := contract, sender := some sender,
              simulate := none } msg store₁]) := by
  simp only [_execute_call]
  split
  · exact ⟨[], by simp, Or.inl rfl⟩
  · split
    · exact ⟨[], by simp, Or.inl rfl⟩
    · rename_i xa account ha xw wasm hw
      split
      · exact ⟨_, rfl, Or.inr ⟨account, wasm, ha, hw, rfl⟩⟩
      · split
        · exact ⟨_, rfl, Or.inr ⟨account, wasm, ha, hw, rfl⟩⟩
        · exact ⟨_, rfl, Or.inr ⟨account, wasm, ha, hw, rfl⟩⟩

/-- `_instantiate` staged: an early failure with an empty trace, or the code
load succeeds and the run is the funds prologue (from the post-update store)
followed on success by the call tail at the derived address. -/
theorem instantiate_stage_shape (vm : Vm) (dbg : Bool)
    (ac : Addr → Hash → Binary → Addr) (st : Store) (block : BlockInfo)
    (sender : Addr) (code_hash : Hash) (m salt : Binary) (funds : Coins)
    (admin : Option Addr) :
    (_instantiate vm dbg ac st block sender code_hash m salt funds admin).2.2 = [] ∨
    ∃ wasm store₁,
      CODES_load st code_hash = .ok wasm ∧
      ((∃ e st' tr,
          transfer_if_funds vm dbg store₁ block sender (ac sender code_hash salt)
            funds = (.error e, st', tr) ∧
          _instantiate vm dbg ac st block sender code_hash m salt funds admin =
            (.error e, st', tr)) ∨
        (∃ st₂ tr,
          transfer_if_funds vm dbg store₁ block sender (ac sender code_hash salt)
            funds = (.ok (), st₂, tr) ∧
          _instantiate vm dbg ac st block sender code_hash m salt funds admin =
            _instantiate_call vm dbg st₂ block (ac sender code_hash salt) sender
              wasm m tr)) := by
  rcases hc : CODES_load st code_hash with e | wasm
  · left
    simp [_instantiate, hc]
  · rcases hu : ACCOUNTS_update st (ac sender code_hash salt) (fun maybe_acct =>
        match maybe_acct with
        | some _ => .error (.accountExists (ac sender code_hash salt))
        | none => .ok (some { code_hash := code_hash, admin := admin })) with e | store₁
    · left
      simp [_instantiate, hc, hu]
    · rcases hp : transfer_if_funds vm dbg store₁ block sender
          (ac sender code_hash salt) funds with ⟨rp, stp, trp⟩
      cases rp with
      | error e =>
        exact Or.inr ⟨wasm, store₁, rfl,
          Or.inl ⟨e, stp, trp, hp, by simp [_instantiate, hc, hu, hp]⟩⟩
      | ok u =>
        cases u
        exact Or.inr ⟨wasm, store₁, rfl,
          Or.inr ⟨stp, trp, hp, by simp [_instantiate, hc, hu, hp]⟩⟩

/-- The call tail of `_instantiate` appends exactly one `callInstantiateAct`
over the store it was given, at the derived address. -/
theorem instantiate_call_trace (vm : Vm) (dbg : Bool) (store₂ : Store)
    (block : BlockInfo) (address sender : Addr) (wasm_byte_code msg : Binary)
    (tr : List Action) :
    (_instantiate_call vm dbg store₂ block address sender wasm_byte_code msg
        tr).2.2 =
      tr ++ [Action.callInstantiateAct [CONTRACT_NAMESPACE, addrNs address]
        wasm_byte_code
        { block := block, contract := address, sender := some sender,
          simulate := none } msg store₂] := by
  simp only [_instantiate_call]
  split
  · rfl
  · split
    · rfl
    · rfl

/-- Every `callExecuteAct` a run of `_execute` records carries the context
built for the target contract (target as `contract`, caller as `sender`, the
handler's block, no simulate flag), the message argument, the target-scoped
namespace, and a store in which the target's account and the bytecode the
instance was built from are registered. -/
theorem execute_act_mem_shape (vm : Vm) (dbg : Bool) (st : Store)
    (block : BlockInfo) (contract sender : Addr) (m : Binary) (funds : Coins)
    {ns : List Binary} {w : Binary} {ctx : Context} {marg : Binary} {st₁ : Store}
    (hmem : Action.callExecuteAct ns w ctx marg st₁ ∈
      (_execute vm dbg st block contract sender m funds).2.2) :
    ctx = { block := block, contract := contract, sender := some sender,
            simulate := none } ∧
    marg = m ∧ ns = [CONTRACT_NAMESPACE, addrNs contract] ∧
    ∃ account, st₁.accounts contract = some account ∧
      st₁.codes account.code_hash = some w := by
  rcases execute_stage_shape vm dbg st block contract sender m funds with
    ⟨e, st', tr, hp, hx⟩ | ⟨stP, trP, hp, hx⟩
  · -- the funds prologue failed: the trace is a `_transfer` trace, which
    -- contains no `callExecuteAct`
    rw [hx] at hmem
    obtain ⟨_, ht⟩ := transfer_if_funds_err vm dbg st block sender contract funds hp
    have hshape := transfer_trace_shape vm dbg st block sender contract funds
    rw [ht] at hshape
    simp only [] at hshape
    rcases hshape with h0 | ⟨nsT, wT, ctxT, h1⟩
    · rw [h0] at hmem
      simp at hmem
    · rw [h1] at hmem
      simp at hmem
  · rw [hx] at hmem
    rcases execute_call_trace vm dbg stP block contract sender m trP with
      ⟨tail, htr, hcases⟩
    rw [htr, List.mem_append] at hmem
    rcases hmem with hmem | hmem
    · -- in the prologue's trace: impossible, it holds only transfer actions
      cases hne : Coins.is_empty funds
      case true =>
        have h2 :=
          (transfer_if_funds_empty vm dbg st block sender contract funds hne).symm.trans hp
        simp only [Prod.mk.injEq, true_and] at h2
        obtain ⟨-, htrP⟩ := h2
        rw [← htrP] at hmem
        simp at hmem
      case false =>
        obtain ⟨mT, ht⟩ :=
          transfer_if_funds_ok vm dbg st block sender contract funds hne hp
        obtain ⟨-, nsT, wT, ctxT, respT, htrP, -, -⟩ :=
          transfer_ok_shape vm dbg st block sender contract funds ht
        rw [htrP] at hmem
        simp at hmem
    · rcases hcases with h0 | ⟨account, wasm, ha, hw, htail⟩
      · rw [h0] at hmem
        simp at hmem
      · rw [htail] at hmem
        simp only [List.mem_singleton, Action.callExecuteAct.injEq] at hmem
        obtain ⟨hns, hw', hctx, hmarg, hst⟩ := hmem
        subst hns hw' hctx hmarg hst
        exact ⟨rfl, rfl, rfl, account, ACCOUNTS_load_ok ha, CODES_load_ok hw⟩

/-- The dispatcher and the `execute` wrapper preserve the trace of the inner
`_execute` (the double parameter swap between `process_msg` → `execute` →
`_execute` cancels). -/
theorem process_msg_execute_trace (vm : Vm) (dbg : Bool)
    (ac : Addr → Hash → Binary → Addr) (hashFn : Binary → Hash) (st : Store)
    (block : BlockInfo) (sender contract : Addr) (m : Binary) (funds : Coins) :
    (process_msg vm dbg ac hashFn st block sender (.execute contract m funds)).2.2 =
      (_execute vm dbg st block contract sender m funds).2.2 := by
  rcases he : _execute vm dbg st block contract sender m funds with ⟨r, st', tr⟩
  cases r <;> simp [process_msg, execute, he]

-- ---------------------------------------------------------------------------
-- C9
-- ---------------------------------------------------------------------------

/-- C9: processing `Execute{contract, msg, funds}` from sender S invokes the
execute entry point over the target contract's namespaced storage view, with
the target's account and bytecode loaded (not S's), and with a context whose
`contract` field is the message's target and whose `sender` field is
`Some(S)`.  (The argument swap at the `process_msg` → `execute` call site is
cancelled by the swap in `execute`'s own body.) -/
theorem process_msg_execute_targets_contract (vm : Vm) (dbg : Bool)
    (ac : Addr → Hash → Binary → Addr) (hashFn : Binary → Hash) (st : Store)
    (block : BlockInfo) (sender contract : Addr) (m : Binary) (funds : Coins)
    (ns : List Binary) (w : Binary) (ctx : Context) (marg : Binary) (st₁ : Store)
    (hmem : Action.callExecuteAct ns w ctx marg st₁ ∈
      (process_msg vm dbg ac hashFn st block sender
        (.execute contract m funds)).2.2) :
    ctx.contract = contract ∧ ctx.sender = some sender ∧ ctx.block = block ∧
    ctx.simulate = none ∧ marg = m ∧ ns = [CONTRACT_NAMESPACE, addrNs contract] ∧
    ∃ account, st₁.accounts contract = some account ∧
      st₁.codes account.code_hash = some w := by
  rw [process_msg_execute_trace vm dbg ac hashFn st block sender contract m funds]
    at hmem
  obtain ⟨hctx, hmarg, hns, account, ha, hw⟩ :=
    execute_act_mem_shape vm dbg st block contract sender m funds hmem
  subst hctx
  subst hmarg
  subst hns
  exact ⟨rfl, rfl, rfl, rfl, rfl, rfl, account, ha, hw⟩

/-- C9 at a concrete input: in the sample world, executing contract 2 as
sender 3 records exactly one execute call, and the theorem applies to it. -/
theorem process_msg_execute_targets_contract_witness :
    ∃ account, sampleStore.accounts 2 = some account ∧
      sampleStore.codes account.code_hash = some [2] :=
  (process_msg_execute_targets_contract okVm false (fun _ _ _ => 0) (fun _ => 0)
    sampleStore sampleBlock 3 2 [5] [] [CONTRACT_NAMESPACE, addrNs 2] [2]
    { block := sampleBlock, contract := 2, sender := some 3, simulate := none }
    [5] sampleStore
    (by
      have h : (process_msg okVm false (fun _ _ _ => 0) (fun _ => 0) sampleStore
          sampleBlock 3 (.execute 2 [5] [])).2.2 =
          [Action.callExecuteAct [CONTRACT_NAMESPACE, addrNs 2] [2]
            { block := sampleBlock, contract := 2, sender := some 3,
              simulate := none } [5] sampleStore] := rfl
      rw [h]
      exact List.mem_singleton.mpr rfl)).2.2.2.2.2.2

-- ---------------------------------------------------------------------------
-- C3
-- ---------------------------------------------------------------------------

/-- C3: for `Execute` and `Instantiate` with non-empty attached funds, the
bank transfer of those funds into the target is performed — and must succeed —
strictly before the target's entry point is invoked, and the entry point runs
over the store produced by the transfer (so the target's balance reflects it);
with empty funds no transfer call is made at all.  Concretely: with empty
funds the handlers' traces contain no `callTransferAct`; with non-empty funds
every entry-point call in a handler's trace is preceded (the trace starts with
it) by a successful bank transfer of exactly `funds` from the sender into the
target, whose output store is the store the entry point received. -/
theorem funds_transferred_before_entry (vm : Vm) (dbg : Bool)
    (ac : Addr → Hash → Binary → Addr) (st : Store) (block : BlockInfo)
    (sender contract : Addr) (code_hash : Hash) (m salt : Binary)
    (funds : Coins) (admin : Option Addr) :
    (Coins.is_empty funds = true →
      (∀ a ∈ (_execute vm dbg st block contract sender m funds).2.2,
        ∀ nsT wT ctxT msgT stT, a ≠ Action.callTransferAct nsT wT ctxT msgT stT) ∧
      (∀ a ∈ (_instantiate vm dbg ac st block sender code_hash m salt funds
          admin).2.2,
        ∀ nsT wT ctxT msgT stT, a ≠ Action.callTransferAct nsT wT ctxT msgT stT)) ∧
    (Coins.is_empty funds = false →
      (∀ ns w ctx marg stc,
        Action.callExecuteAct ns w ctx marg stc ∈
          (_execute vm dbg st block contract sender m funds).2.2 →
        ∃ nsT wT ctxT respT rest,
          (_execute vm dbg st block contract sender m funds).2.2 =
            Action.callTransferAct nsT wT ctxT
              { from_ := sender, to_ := contract, coins := funds } st :: rest ∧
          Action.callExecuteAct ns w ctx marg stc ∈ rest ∧
          vm.callTransfer nsT wT ctxT
            { from_ := sender, to_ := contract, coins := funds } st =
            .ok (respT, stc)) ∧
      (∀ ns w ctx marg stc,
        Action.callInstantiateAct ns w ctx marg stc ∈
          (_instantiate vm dbg ac st block sender code_hash m salt funds
            admin).2.2 →
        ∃ nsT wT ctxT stT respT rest,
          (_instantiate vm dbg ac st block sender code_hash m salt funds
              admin).2.2 =
            Action.callTransferAct nsT wT ctxT
              { from_ := sender, to_ := ac sender code_hash salt, coins := funds }
              stT :: rest ∧
          Action.callInstantiateAct ns w ctx marg stc ∈ rest ∧
          vm.callTransfer nsT wT ctxT
            { from_ := sender, to_ := ac sender code_hash salt, coins := funds }
            stT = .ok (respT, stc))) := by
  constructor
  · -- empty funds: no transfer call anywhere
    intro hfe
    constructor
    · intro a ha nsT wT ctxT msgT stT
      have hp := transfer_if_funds_empty vm dbg st block sender contract funds hfe
      have hx : _execute vm dbg st block contract sender m funds =
          _execute_call vm dbg st block contract sender m [] := by
        simp [_execute, hp]
      rw [hx] at ha
      rcases execute_call_trace vm dbg st block contract sender m [] with
        ⟨tail, htr, hcases⟩
      rw [htr] at ha
      rcases hcases with h0 | ⟨account, wasm, hA, hW, htail⟩
      · rw [h0] at ha; simp at ha
      · rw [htail] at ha
        simp only [List.nil_append, List.mem_singleton] at ha
        subst ha
        simp
    · intro a ha nsT wT ctxT msgT stT
      rcases instantiate_stage_shape vm dbg ac st block sender code_hash m salt
          funds admin with h0 | ⟨wasm, store₁, hc, hcase⟩
      · rw [h0] at ha; simp at ha
      · rcases hcase with ⟨e, st', tr, hp, hx⟩ | ⟨st₂, tr, hp, hx⟩
        · rw [transfer_if_funds_empty vm dbg store₁ block sender
            (ac sender code_hash salt) funds hfe] at hp
          simp at hp
        · have h2 := (transfer_if_funds_empty vm dbg store₁ block sender
            (ac sender code_hash salt) funds hfe).symm.trans hp
          simp only [Prod.mk.injEq, true_and] at h2
          obtain ⟨hst₂, htr0⟩ := h2
          rw [hx] at ha
          rw [instantiate_call_trace vm dbg st₂ block (ac sender code_hash salt)
            sender wasm m tr] at ha
          rw [← htr0] at ha
          simp only [List.nil_append, List.mem_singleton] at ha
          subst ha
          simp
  · -- non-empty funds
    intro hne
    constructor
    · intro ns w ctx marg stc hmem
      rcases execute_stage_shape vm dbg st block contract sender m funds with
        ⟨e, st', tr, hp, hx⟩ | ⟨stP, trP, hp, hx⟩
      · -- prologue failed: trace holds no callExecuteAct
        rw [hx] at hmem
        obtain ⟨-, ht⟩ := transfer_if_funds_err vm dbg st block sender contract
          funds hp
        have hshape := transfer_trace_shape vm dbg st block sender contract funds
        rw [ht] at hshape
        simp only [] at hshape
        rcases hshape with h0 | ⟨nsT, wT, ctxT, h1⟩
        · rw [h0] at hmem; simp at hmem
        · rw [h1] at hmem; simp at hmem
      · obtain ⟨mT, ht⟩ := transfer_if_funds_ok vm dbg st block sender contract
          funds hne hp
        obtain ⟨hmsg, nsT, wT, ctxT, respT, htrP, hvT, hdT⟩ :=
          transfer_ok_shape vm dbg st block sender contract funds ht
        subst hmsg
        rw [hx] at hmem
        rcases execute_call_trace vm dbg stP block contract sender m trP with
          ⟨tail, htr, hcases⟩
        rw [htr] at hmem
        rw [List.mem_append] at hmem
        rcases hmem with hmem | hmem
        · rw [htrP] at hmem
          simp at hmem
        · rcases hcases with h0 | ⟨account, wasm, hA, hW, htail⟩
          · rw [h0] at hmem; simp at hmem
          · rw [htail] at hmem
            simp only [List.mem_singleton, Action.callExecuteAct.injEq] at hmem
            obtain ⟨hns, hw', hctx, hmarg, hst⟩ := hmem
            subst hns
            subst hw'
            subst hctx
            subst hmarg
            subst hst
            refine ⟨nsT, wT, ctxT, respT, tail, ?_, ?_, hvT⟩
            · rw [hx, htr, htrP]
              rfl
            · rw [htail]
              simp
    · intro ns w ctx marg stc hmem
      rcases instantiate_stage_shape vm dbg ac st block sender code_hash m salt
          funds admin with h0 | ⟨wasm, store₁, hc, hcase⟩
      · rw [h0] at hmem; simp at hmem
      · rcases hcase with ⟨e, st', tr, hp, hx⟩ | ⟨st₂, trP, hp, hx⟩
        · -- prologue failed: the trace is a transfer trace
          rw [hx] at hmem
          obtain ⟨-, ht⟩ := transfer_if_funds_err vm dbg store₁ block sender
            (ac sender code_hash salt) funds hp
          have hshape := transfer_trace_shape vm dbg store₁ block sender
            (ac sender code_hash salt) funds
          rw [ht] at hshape
          simp only [] at hshape
          rcases hshape with h0 | ⟨nsT, wT, ctxT, h1⟩
          · rw [h0] at hmem; simp at hmem
          · rw [h1] at hmem; simp at hmem
        · obtain ⟨mT, ht⟩ := transfer_if_funds_ok vm dbg store₁ block sender
            (ac sender code_hash salt) funds hne hp
          obtain ⟨hmsg, nsT, wT, ctxT, respT, htrP, hvT, hdT⟩ :=
            transfer_ok_shape vm dbg store₁ block sender
              (ac sender code_hash salt) funds ht
          subst hmsg
          rw [hx] at hmem
          rw [instantiate_call_trace vm dbg st₂ block (ac sender code_hash salt)
            sender wasm m trP] at hmem
          rw [List.mem_append] at hmem
          rcases hmem with hmem | hmem
          · rw [htrP] at hmem
            simp at hmem
          · simp only [List.mem_singleton, Action.callInstantiateAct.injEq] at hmem
            obtain ⟨hns, hw', hctx, hmarg, hst⟩ := hmem
            subst hns
            subst hw'
            subst hctx
            subst hmarg
            subst hst
            refine ⟨nsT, wT, ctxT, store₁, respT,
              [Action.callInstantiateAct [CONTRACT_NAMESPACE,
                addrNs (ac sender code_hash salt)] w
                { block := block, contract := ac sender code_hash salt,
                  sender := some sender, simulate := none } marg stc], ?_, ?_, hvT⟩
            · rw [hx]
              rw [instantiate_call_trace vm dbg stc block
                (ac sender code_hash salt) sender w marg trP]
              rw [htrP]
              rfl
            · simp

/-- C3 at a concrete input: executing contract 2 as sender 3 with one attached
coin, the trace starts with the successful bank transfer and the execute call
runs on the transfer's output store. -/
theorem funds_transferred_before_entry_witness :
    ∃ nsT wT ctxT respT rest,
      (_execute okVm false sampleStore sampleBlock 2 3 [5] [([97], 2)]).2.2 =
        Action.callTransferAct nsT wT ctxT
          { from_ := 3, to_ := 2, coins := [([97], 2)] } sampleStore :: rest ∧
      Action.callExecuteAct [CONTRACT_NAMESPACE, addrNs 2] [2]
        { block := sampleBlock, contract := 2, sender := some 3,
          simulate := none } [5] sampleStore ∈ rest ∧
      okVm.callTransfer nsT wT ctxT
        { from_ := 3, to_ := 2, coins := [([97], 2)] } sampleStore =
        .ok (respT, sampleStore) :=
  ((funds_transferred_before_entry okVm false (fun _ _ _ => 0) sampleStore
      sampleBlock 3 2 0 [5] [] [([97], 2)] none).2 (by decide)).1
    [CONTRACT_NAMESPACE, addrNs 2] [2]
    { block := sampleBlock, contract := 2, sender := some 3, simulate := none }
    [5] sampleStore
    (by
      have h : (_execute okVm false sampleStore sampleBlock 2 3 [5]
          [([97], 2)]).2.2 =
          [Action.callTransferAct [CONTRACT_NAMESPACE, addrNs 1] [1]
            { block := sampleBlock, contract := 1, sender := none,
              simulate := none }
            { from_ := 3, to_ := 2, coins := [([97], 2)] } sampleStore,
          Action.callExecuteAct [CONTRACT_NAMESPACE, addrNs 2] [2]
            { block := sampleBlock, contract := 2, sender := some 3,
              simulate := none } [5] sampleStore] := rfl
      rw [h]
      exact List.Mem.tail _ (List.Mem.head _))

-- ---------------------------------------------------------------------------
-- C7
-- ---------------------------------------------------------------------------

/-- `debug_assert!` with assertions compiled in fails fatally on a non-empty
list. -/
theorem debug_assert_fails {l : List SubMsg} (hne : l ≠ []) :
    debug_assert true l.isEmpty = .error .fatalAssert := by
  cases l with
  | nil => exact absurd rfl hne
  | cons a as => rfl

/-- Every action in a successful funds prologue's trace is a bank transfer
call. -/
theorem prologue_trace_transfer_only (vm : Vm) (dbg : Bool) (st : Store)
    (block : BlockInfo) (f t : Addr) (funds : Coins) {stP : Store}
    {trP : List Action}
    (hp : transfer_if_funds vm dbg st block f t funds = (.ok (), stP, trP)) :
    ∀ a ∈ trP, ∃ ns w ctx msgT stc, a = Action.callTransferAct ns w ctx msgT stc := by
  intro a ha
  cases hne : Coins.is_empty funds
  case true =>
    have h2 := (transfer_if_funds_empty vm dbg st block f t funds hne).symm.trans hp
    simp only [Prod.mk.injEq, true_and] at h2
    obtain ⟨-, htrP⟩ := h2
    rw [← htrP] at ha
    simp at ha
  case false =>
    obtain ⟨mT, ht⟩ := transfer_if_funds_ok vm dbg st block f t funds hne hp
    obtain ⟨-, nsT, wT, ctxT, respT, htrP, -, -⟩ :=
      transfer_ok_shape vm dbg st block f t funds ht
    rw [htrP] at ha
    simp only [List.mem_singleton] at ha
    exact ⟨_, _, _, _, _, ha⟩

/-- If the bank transfer call a `_transfer` run recorded returned a response
with a non-empty submessage list and the submessage assertion fails, the run
fails fatally. -/
theorem transfer_assert_fail (vm : Vm) (dbg : Bool) (st : Store)
    (block : BlockInfo) (f t : Addr) (c : Coins) {ns : List Binary} {w : Binary}
    {ctx : Context} {msgT : TransferMsg} {stc : Store} {resp : Response}
    {st' : Store}
    (hmem : Action.callTransferAct ns w ctx msgT stc ∈
      (_transfer vm dbg st block f t c).2.2)
    (hv : vm.callTransfer ns w ctx msgT stc = .ok (resp, st'))
    (hd : debug_assert dbg resp.msgs.isEmpty = .error .fatalAssert) :
    (_transfer vm dbg st block f t c).1 = .error .fatalAssert := by
  simp only [_transfer] at hmem ⊢
  split
  · rename_i e heq
    rw [heq] at hmem
    dsimp only at hmem
    simp at hmem
  · rename_i cfg heq
    rw [heq] at hmem
    dsimp only at hmem
    split
    · rename_i e heqA
      rw [heqA] at hmem
      dsimp only at hmem
      simp at hmem
    · rename_i account heqA
      rw [heqA] at hmem
      dsimp only at hmem
      split
      · rename_i e heqW
        rw [heqW] at hmem
        dsimp only at hmem
        simp at hmem
      · rename_i wasm heqW
        rw [heqW] at hmem
        dsimp only at hmem
        split
        · rename_i e heqV
          rw [heqV] at hmem
          dsimp only at hmem
          simp only [List.mem_singleton, Action.callTransferAct.injEq] at hmem
          obtain ⟨hns, hw, hctx, hmsg, hst⟩ := hmem
          subst hns
          subst hw
          subst hctx
          subst hmsg
          subst hst
          rw [heqV] at hv
          simp at hv
        · rename_i resp' st'' heqV
          rw [heqV] at hmem
          dsimp only at hmem
          split
          · rename_i e heqD
            rw [heqD] at hmem
            dsimp only at hmem
            simp only [List.mem_singleton, Action.callTransferAct.injEq] at hmem
            obtain ⟨hns, hw, hctx, hmsg, hst⟩ := hmem
            subst hns
            subst hw
            subst hctx
            subst hmsg
            subst hst
            rw [heqV] at hv
            simp only [Except.ok.injEq, Prod.mk.injEq] at hv
            obtain ⟨hresp, -⟩ := hv
            subst hresp
            rw [heqD] at hd
            simp only [Except.error.injEq] at hd
            rw [hd]
          · rename_i heqD
            rw [heqD] at hmem
            dsimp only at hmem
            simp only [List.mem_singleton, Action.callTransferAct.injEq] at hmem
            obtain ⟨hns, hw, hctx, hmsg, hst⟩ := hmem
            subst hns
            subst hw
            subst hctx
            subst hmsg
            subst hst
            rw [heqV] at hv
            simp only [Except.ok.injEq, Prod.mk.injEq] at hv
            obtain ⟨hresp, -⟩ := hv
            subst hresp
            rw [heqD] at hd
            simp at hd

/-- If the execute call a `_execute_call` run recorded returned a response
with a non-empty submessage list and the submessage assertion fails, the run
fails fatally (given that the accumulated prefix `tr` holds only transfer
calls). -/
theorem execute_call_assert_fail (vm : Vm) (dbg : Bool) (store₁ : Store)
    (block : BlockInfo) (contract sender : Addr) (msg : Binary)
    (tr : List Action) {ns : List Binary} {w : Binary} {ctx : Context}
    {marg : Binary} {stc : Store} {resp : Response} {st' : Store}
    (htr : ∀ a ∈ tr, ∃ ns' w' ctx' msgT' stc',
      a = Action.callTransferAct ns' w' ctx' msgT' stc')
    (hmem : Action.callExecuteAct ns w ctx marg stc ∈
      (_execute_call vm dbg store₁ block contract sender msg tr).2.2)
    (hv : vm.callExecute ns w ctx marg stc = .ok (resp, st'))
    (hd : debug_assert dbg resp.msgs.isEmpty = .error .fatalAssert) :
    (_execute_call vm dbg store₁ block contract sender msg tr).1 =
      .error .fatalAssert := by
  have hnotr : Action.callExecuteAct ns w ctx marg stc ∉ tr := by
    intro hin
    obtain ⟨ns', w', ctx', msgT', stc', habs⟩ := htr _ hin
    simp at habs
  simp only [_execute_call] at hmem ⊢
  split
  · rename_i e heq
    rw [heq] at hmem
    dsimp only at hmem
    exact absurd hmem hnotr
  · rename_i account heqA
    rw [heqA] at hmem
    dsimp only at hmem
    split
    · rename_i e heqW
      rw [heqW] at hmem
      dsimp only at hmem
      exact absurd hmem hnotr
    · rename_i wasm heqW
      rw [heqW] at hmem
      dsimp only at hmem
      split
      · rename_i e heqV
        rw [heqV] at hmem
        dsimp only at hmem
        rw [List.mem_append] at hmem
        rcases hmem with hmem | hmem
        · exact absurd hmem hnotr
        · simp only [List.mem_singleton, Action.callExecuteAct.injEq] at hmem
          obtain ⟨hns, hw, hctx, hmarg, hst⟩ := hmem
          subst hns
          subst hw
          subst hctx
          subst hmarg
          subst hst
          rw [heqV] at hv
          simp at hv
      · rename_i resp' st'' heqV
        rw [heqV] at hmem
        dsimp only at hmem
        split
        · rename_i e heqD
          rw [heqD] at hmem
          dsimp only at hmem
          rw [List.mem_append] at hmem
          rcases hmem with hmem | hmem
          · exact absurd hmem hnotr
          · simp only [List.mem_singleton, Action.callExecuteAct.injEq] at hmem
            obtain ⟨hns, hw, hctx, hmarg, hst⟩ := hmem
            subst hns
            subst hw
            subst hctx
            subst hmarg
            subst hst
            rw [heqV] at hv
            simp only [Except.ok.injEq, Prod.mk.injEq] at hv
            obtain ⟨hresp, -⟩ := hv
            subst hresp
            rw [heqD] at hd
            simp only [Except.error.injEq] at hd
            rw [hd]
        · rename_i heqD
          rw [heqD] at hmem
          dsimp only at hmem
          rw [List.mem_append] at hmem
          rcases hmem with hmem | hmem
          · exact absurd hmem hnotr
          · simp only [List.mem_singleton, Action.callExecuteAct.injEq] at hmem
            obtain ⟨hns, hw, hctx, hmarg, hst⟩ := hmem
            subst hns
            subst hw
            subst hctx
            subst hmarg
            subst hst
            rw [heqV] at hv
            simp only [Except.ok.injEq, Prod.mk.injEq] at hv
            obtain ⟨hresp, -⟩ := hv
            subst hresp
            rw [heqD] at hd
            simp at hd

/-- If the instantiate call an `_instantiate_call` run recorded returned a
response with a non-empty submessage list and the submessage assertion fails,
the run fails fatally (given that the accumulated prefix `tr` holds only
transfer calls). -/
theorem instantiate_call_assert_fail (vm : Vm) (dbg : Bool) (store₂ : Store)
    (block : BlockInfo) (address sender : Addr) (wasm_byte_code msg : Binary)
    (tr : List Action) {ns : List Binary} {w : Binary} {ctx : Context}
    {marg : Binary} {stc : Store} {resp : Response} {st' : Store}
    (htr : ∀ a ∈ tr, ∃ ns' w' ctx' msgT' stc',
      a = Action.callTransferAct ns' w' ctx' msgT' stc')
    (hmem : Action.callInstantiateAct ns w ctx marg stc ∈
      (_instantiate_call vm dbg store₂ block address sender wasm_byte_code msg
        tr).2.2)
    (hv : vm.callInstantiate ns w ctx marg stc = .ok (resp, st'))
    (hd : debug_assert dbg resp.msgs.isEmpty = .error .fatalAssert) :
    (_instantiate_call vm dbg store₂ block address sender wasm_byte_code msg
        tr).1 = .error .fatalAssert := by
  have hnotr : Action.callInstantiateAct ns w ctx marg stc ∉ tr := by
    intro hin
    obtain ⟨ns', w', ctx', msgT', stc', habs⟩ := htr _ hin
    simp at habs
  simp only [_instantiate_call] at hmem ⊢
  split
  · rename_i e heqV
    rw [heqV] at hmem
    dsimp only at hmem
    rw [List.mem_append] at hmem
    rcases hmem with hmem | hmem
    · exact absurd hmem hnotr
    · simp only [List.mem_singleton, Action.callInstantiateAct.injEq] at hmem
      obtain ⟨hns, hw, hctx, hmarg, hst⟩ := hmem
      subst hns
      subst hw
      subst hctx
      subst hmarg
      subst hst
      rw [heqV] at hv
      simp at hv
  · rename_i resp' st'' heqV
    rw [heqV] at hmem
    dsimp only at hmem
    split
    · rename_i e heqD
      rw [heqD] at hmem
      dsimp only at hmem
      rw [List.mem_append] at hmem
      rcases hmem with hmem | hmem
      · exact absurd hmem hnotr
      · simp only [List.mem_singleton, Action.callInstantiateAct.injEq] at hmem
        obtain ⟨hns, hw, hctx, hmarg, hst⟩ := hmem
        subst hns
        subst hw
        subst hctx
        subst hmarg
        subst hst
        rw [heqV] at hv
        simp only [Except.ok.injEq, Prod.mk.injEq] at hv
        obtain ⟨hresp, -⟩ := hv
        subst hresp
        rw [heqD] at hd
        simp only [Except.error.injEq] at hd
        rw [hd]
    · rename_i heqD
      rw [heqD] at hmem
      dsimp only at hmem
      rw [List.mem_append] at hmem
      rcases hmem with hmem | hmem
      · exact absurd hmem hnotr
      · simp only [List.mem_singleton, Action.callInstantiateAct.injEq] at hmem
        obtain ⟨hns, hw, hctx, hmarg, hst⟩ := hmem
        subst hns
        subst hw
        subst hctx
        subst hmarg
        subst hst
        rw [heqV] at hv
        simp only [Except.ok.injEq, Prod.mk.injEq] at hv
        obtain ⟨hresp, -⟩ := hv
        subst hresp
        rw [heqD] at hd
        simp at hd

/-- C7 counterexample: the claim "the handlers never proceed past a non-empty
submessage list as if it were allowed" is false as stated, because the check
is a `debug_assert!`: with debug assertions disabled (the release profile,
`dbg = false`) `_transfer` receives a response carrying one submessage and
still returns success, silently dropping the submessage. -/
theorem release_build_ignores_submsgs :
    submsgVm.callTransfer [CONTRACT_NAMESPACE, addrNs 1] [1]
        { block := sampleBlock, contract := 1, sender := none, simulate := none }
        { from_ := 3, to_ := 2, coins := [] } sampleStore =
      .ok ({ attributes := [], msgs := [.stub] }, sampleStore) ∧
    (_transfer submsgVm false sampleStore sampleBlock 3 2 []).1 =
      .ok { from_ := 3, to_ := 2, coins := [] } :=
  ⟨rfl, rfl⟩

/-- C7 amended: the submessage check is a `debug_assert!`, so only with debug
assertions compiled in (`dbg = true`) is a contract call response with a
non-empty submessage list a fatal invariant violation: each of the three
handlers (`_transfer`, `_instantiate`, `_execute`) then fails fatally rather
than proceed past it.  (With assertions disabled the handlers proceed and
ignore the submessages — see the counterexample.) -/
theorem handlers_assert_no_submsgs (vm : Vm) (st : Store) (block : BlockInfo) :
    (∀ (f t : Addr) (c : Coins) (ns : List Binary) (w : Binary) (ctx : Context)
      (msgT : TransferMsg) (stc : Store) (resp : Response) (stv : Store),
      Action.callTransferAct ns w ctx msgT stc ∈
        (_transfer vm true st block f t c).2.2 →
      vm.callTransfer ns w ctx msgT stc = .ok (resp, stv) →
      resp.msgs ≠ [] →
      (_transfer vm true st block f t c).1 = .error .fatalAssert) ∧
    (∀ (ac : Addr → Hash → Binary → Addr) (sender : Addr) (code_hash : Hash)
      (m salt : Binary) (funds : Coins) (admin : Option Addr) (ns : List Binary)
      (w : Binary) (ctx : Context) (marg : Binary) (stc : Store)
      (resp : Response) (stv : Store),
      Action.callInstantiateAct ns w ctx marg stc ∈
        (_instantiate vm true ac st block sender code_hash m salt funds
          admin).2.2 →
      vm.callInstantiate ns w ctx marg stc = .ok (resp, stv) →
      resp.msgs ≠ [] →
      (_instantiate vm true ac st block sender code_hash m salt funds admin).1 =
        .error .fatalAssert) ∧
    (∀ (contract sender : Addr) (m : Binary) (funds : Coins) (ns : List Binary)
      (w : Binary) (ctx : Context) (marg : Binary) (stc : Store)
      (resp : Response) (stv : Store),
      Action.callExecuteAct ns w ctx marg stc ∈
        (_execute vm true st block contract sender m funds).2.2 →
      vm.callExecute ns w ctx marg stc = .ok (resp, stv) →
      resp.msgs ≠ [] →
      (_execute vm true st block contract sender m funds).1 =
        .error .fatalAssert) := by
  refine ⟨?_, ?_, ?_⟩
  · intro f t c ns w ctx msgT stc resp stv hmem hv hne
    exact transfer_assert_fail vm true st block f t c hmem hv
      (debug_assert_fails hne)
  · intro ac sender code_hash m salt funds admin ns w ctx marg stc resp stv
      hmem hv hne
    rcases instantiate_stage_shape vm true ac st block sender code_hash m salt
        funds admin with h0 | ⟨wasm, store₁, hc, hcase⟩
    · rw [h0] at hmem
      simp at hmem
    · rcases hcase with ⟨e, stq, tr, hp, hx⟩ | ⟨st₂, trP, hp, hx⟩
      · rw [hx] at hmem
        obtain ⟨-, ht⟩ := transfer_if_funds_err vm true store₁ block sender
          (ac sender code_hash salt) funds hp
        have hshape := transfer_trace_shape vm true store₁ block sender
          (ac sender code_hash salt) funds
        rw [ht] at hshape
        simp only [] at hshape
        rcases hshape with h0 | ⟨nsT, wT, ctxT, h1⟩
        · rw [h0] at hmem; simp at hmem
        · rw [h1] at hmem; simp at hmem
      · rw [hx] at hmem ⊢
        exact instantiate_call_assert_fail vm true st₂ block
          (ac sender code_hash salt) sender wasm m trP
          (prologue_trace_transfer_only vm true store₁ block sender
            (ac sender code_hash salt) funds hp)
          hmem hv (debug_assert_fails hne)
  · intro contract sender m funds ns w ctx marg stc resp stv hmem hv hne
    rcases execute_stage_shape vm true st block contract sender m funds with
      ⟨e, stE, trE, hp, hx⟩ | ⟨stP, trP, hp, hx⟩
    · rw [hx] at hmem
      obtain ⟨-, ht⟩ := transfer_if_funds_err vm true st block sender contract
        funds hp
      have hshape := transfer_trace_shape vm true st block sender contract funds
      rw [ht] at hshape
      simp only [] at hshape
      rcases hshape with h0 | ⟨nsT, wT, ctxT, h1⟩
      · rw [h0] at hmem; simp at hmem
      · rw [h1] at hmem; simp at hmem
    · rw [hx] at hmem ⊢
      exact execute_call_assert_fail vm true stP block contract sender m trP
        (prologue_trace_transfer_only vm true st block sender contract funds hp)
        hmem hv (debug_assert_fails hne)

/-- C7 amended at a concrete input: with debug assertions enabled the same
run as in the counterexample fails fatally instead of proceeding. -/
theorem handlers_assert_no_submsgs_witness :
    (_transfer submsgVm true sampleStore sampleBlock 3 2 []).1 =
      .error .fatalAssert :=
  (handlers_assert_no_submsgs submsgVm sampleStore sampleBlock).1 3 2 []
    [CONTRACT_NAMESPACE, addrNs 1] [1]
    { block := sampleBlock, contract := 1, sender := none, simulate := none }
    { from_ := 3, to_ := 2, coins := [] } sampleStore
    { attributes := [], msgs := [.stub] } sampleStore
    (by
      have h : (_transfer submsgVm true sampleStore sampleBlock 3 2 []).2.2 =
          [Action.callTransferAct [CONTRACT_NAMESPACE, addrNs 1] [1]
            { block := sampleBlock, contract := 1, sender := none,
              simulate := none }
            { from_ := 3, to_ := 2, coins := [] } sampleStore] := rfl
      rw [h]
      exact List.Mem.head _)
    rfl (by decide)

-- ---------------------------------------------------------------------------
-- C6
-- ---------------------------------------------------------------------------

/-- `_before_tx` records at most one action: the `before_tx` hook call on the
sender's account, over the input store, with the synthesized hook context. -/
theorem before_tx_trace_shape (vm : Vm) (st : Store) (block : BlockInfo)
    (tx : Tx) :
    (_before_tx vm st block tx).2.2 = [] ∨
    ∃ chain_id account wasm,
      CHAIN_ID_load st = .ok chain_id ∧
      ACCOUNTS_load st tx.sender = .ok account ∧
      CODES_load st account.code_hash = .ok wasm ∧
      (_before_tx vm st block tx).2.2 =
        [Action.callBeforeTxAct [CONTRACT_NAMESPACE, addrNs tx.sender] wasm
          { chain_id := chain_id, block_height := block.height,
            block_timestamp := block.timestamp, block_hash := block.hash,
            contract := tx.sender, sender := none, funds := none,
            simulate := some false, submsg_result := none } tx st] := by
  simp only [_before_tx]
  split
  · exact Or.inl rfl
  · rename_i x1 chain_id hcid
    split
    · exact Or.inl rfl
    · rename_i x2 account hacc
      split
      · exact Or.inl rfl
      · rename_i x3 wasm hcode
        split
        · exact Or.inr ⟨chain_id, account, wasm, hcid, hacc, hcode, rfl⟩
        · split
          · exact Or.inr ⟨chain_id, account, wasm, hcid, hacc, hcode, rfl⟩
          · exact Or.inr ⟨chain_id, account, wasm, hcid, hacc, hcode, rfl⟩

/-- `_after_tx` records at most one action, symmetric to `_before_tx`. -/
theorem after_tx_trace_shape (vm : Vm) (st : Store) (block : BlockInfo)
    (tx : Tx) :
    (_after_tx vm st block tx).2.2 = [] ∨
    ∃ chain_id account wasm,
      CHAIN_ID_load st = .ok chain_id ∧
      ACCOUNTS_load st tx.sender = .ok account ∧
      CODES_load st account.code_hash = .ok wasm ∧
      (_after_tx vm st block tx).2.2 =
        [Action.callAfterTxAct [CONTRACT_NAMESPACE, addrNs tx.sender] wasm
          { chain_id := chain_id, block_height := block.height,
            block_timestamp := block.timestamp, block_hash := block.hash,
            contract := tx.sender, sender := none, funds := none,
            simulate := some false, submsg_result := none } tx st] := by
  simp only [_after_tx]
  split
  · exact Or.inl rfl
  · rename_i x1 chain_id hcid
    split
    · exact Or.inl rfl
    · rename_i x2 account hacc
      split
      · exact Or.inl rfl
      · rename_i x3 wasm hcode
        split
        · exact Or.inr ⟨chain_id, account, wasm, hcid, hacc, hcode, rfl⟩
        · split
          · exact Or.inr ⟨chain_id, account, wasm, hcid, hacc, hcode, rfl⟩
          · exact Or.inr ⟨chain_id, account, wasm, hcid, hacc, hcode, rfl⟩

/-- C6: the transaction hooks invoke the sender account's entry point with a
context whose `contract` is the transaction's sender, whose `sender` and
`funds` are `None` and whose `simulate` flag is `Some(false)`; and when the
hook call succeeds requesting zero submessages, the hook returns exactly one
event — the synthesized hook event tagged with the hook kind and the sender
address. -/
theorem hook_ctx_and_single_event (vm : Vm) (st : Store) (block : BlockInfo)
    (tx : Tx) :
    (∀ ns w ctx t stc,
      Action.callBeforeTxAct ns w ctx t stc ∈ (_before_tx vm st block tx).2.2 →
      ctx.contract = tx.sender ∧ ctx.sender = none ∧ ctx.funds = none ∧
      ctx.simulate = some false ∧ t = tx ∧
      ns = [CONTRACT_NAMESPACE, addrNs tx.sender]) ∧
    (∀ ns w ctx t stc,
      Action.callAfterTxAct ns w ctx t stc ∈ (_after_tx vm st block tx).2.2 →
      ctx.contract = tx.sender ∧ ctx.sender = none ∧ ctx.funds = none ∧
      ctx.simulate = some false ∧ t = tx ∧
      ns = [CONTRACT_NAMESPACE, addrNs tx.sender]) ∧
    (∀ chain_id account wasm resp st',
      st.chain_id = some chain_id →
      st.accounts tx.sender = some account →
      st.codes account.code_hash = some wasm →
      vm.callBeforeTx [CONTRACT_NAMESPACE, addrNs tx.sender] wasm
        { chain_id := chain_id, block_height := block.height,
          block_timestamp := block.timestamp, block_hash := block.hash,
          contract := tx.sender, sender := none, funds := none,
          simulate := some false, submsg_result := none } tx st =
        .ok (resp, st') →
      resp.submsgs = [] →
      (_before_tx vm st block tx).1 =
        .ok [new_before_tx_event tx.sender resp.attributes] ∧
      (new_before_tx_event tx.sender resp.attributes).contract = tx.sender) ∧
    (∀ chain_id account wasm resp st',
      st.chain_id = some chain_id →
      st.accounts tx.sender = some account →
      st.codes account.code_hash = some wasm →
      vm.callAfterTx [CONTRACT_NAMESPACE, addrNs tx.sender] wasm
        { chain_id := chain_id, block_height := block.height,
          block_timestamp := block.timestamp, block_hash := block.hash,
          contract := tx.sender, sender := none, funds := none,
          simulate := some false, submsg_result := none } tx st =
        .ok (resp, st') →
      resp.submsgs = [] →
      (_after_tx vm st block tx).1 =
        .ok [new_after_tx_event tx.sender resp.attributes] ∧
      (new_after_tx_event tx.sender resp.attributes).contract = tx.sender) := by
  refine ⟨?_, ?_, ?_, ?_⟩
  · intro ns w ctx t stc hmem
    rcases before_tx_trace_shape vm st block tx with h0 |
      ⟨chain_id, account, wasm, -, -, -, h1⟩
    · rw [h0] at hmem
      simp at hmem
    · rw [h1] at hmem
      simp only [List.mem_singleton, Action.callBeforeTxAct.injEq] at hmem
      obtain ⟨hns, hw, hctx, ht, hst⟩ := hmem
      subst hns
      subst hctx
      subst ht
      exact ⟨rfl, rfl, rfl, rfl, rfl, rfl⟩
  · intro ns w ctx t stc hmem
    rcases after_tx_trace_shape vm st block tx with h0 |
      ⟨chain_id, account, wasm, -, -, -, h1⟩
    · rw [h0] at hmem
      simp at hmem
    · rw [h1] at hmem
      simp only [List.mem_singleton, Action.callAfterTxAct.injEq] at hmem
      obtain ⟨hns, hw, hctx, ht, hst⟩ := hmem
      subst hns
      subst hctx
      subst ht
      exact ⟨rfl, rfl, rfl, rfl, rfl, rfl⟩
  · intro chain_id account wasm resp st' hcid hacc hcode hvm hsub
    have h1 : CHAIN_ID_load st = .ok chain_id := by simp [CHAIN_ID_load, hcid]
    have h2 : ACCOUNTS_load st tx.sender = .ok account := by
      simp [ACCOUNTS_load, hacc]
    have h3 : CODES_load st account.code_hash = .ok wasm := by
      simp [CODES_load, hcode]
    refine ⟨?_, rfl⟩
    simp [_before_tx, h1, h2, h3, hvm, hsub, handle_submessages]
  · intro chain_id account wasm resp st' hcid hacc hcode hvm hsub
    have h1 : CHAIN_ID_load st = .ok chain_id := by simp [CHAIN_ID_load, hcid]
    have h2 : ACCOUNTS_load st tx.sender = .ok account := by
      simp [ACCOUNTS_load, hacc]
    have h3 : CODES_load st account.code_hash = .ok wasm := by
      simp [CODES_load, hcode]
    refine ⟨?_, rfl⟩
    simp [_after_tx, h1, h2, h3, hvm, hsub, handle_submessages]

/-- C6 at a concrete input: `before_tx` for sender 2 in the sample world
returns exactly the one `before_tx` hook event tagged with the sender. -/
theorem hook_ctx_and_single_event_witness :
    (_before_tx okVm sampleStore sampleBlock { sender := 2 }).1 =
      .ok [new_before_tx_event 2 []] ∧
    (new_before_tx_event 2 []).contract = 2 :=
  (hook_ctx_and_single_event okVm sampleStore sampleBlock { sender := 2 }).2.2.1
    [103] targetAcct [2] { attributes := [], submsgs := [] } sampleStore
    rfl rfl rfl rfl rfl

-- ---------------------------------------------------------------------------
-- C8
-- ---------------------------------------------------------------------------

/-- C8: `process_msg` succeeds exactly when the dispatched handler's inner
operation succeeds, and on failure returns the inner error verbatim: the
dispatcher-level wrappers only observe the result (logging) and map a
successful payload to `()`, never swallowing, transforming or downgrading an
error. -/
theorem process_msg_propagates_errors (vm : Vm) (dbg : Bool)
    (ac : Addr → Hash → Binary → Addr) (hashFn : Binary → Hash) (st : Store)
    (block : BlockInfo) (sender : Addr) (msg : Message) :
    (process_msg vm dbg ac hashFn st block sender msg).1 =
      match msg with
      | .transfer to_ coins =>
        Except.map (fun _ => ()) (_transfer vm dbg st block sender to_ coins).1
      | .storeCode w => Except.map (fun _ => ()) (_store_code hashFn st w).1
      | .instantiate code_hash m salt funds admin =>
        Except.map (fun _ => ())
          (_instantiate vm dbg ac st block sender code_hash m salt funds admin).1
      | .execute contract m funds =>
        Except.map (fun _ => ()) (_execute vm dbg st block contract sender m funds).1 := by
  cases msg with
  | transfer to_ coins =>
    rcases hf : _transfer vm dbg st block sender to_ coins with ⟨r, st', tr⟩
    cases r <;> simp [process_msg, transfer, hf, Except.map]
  | storeCode w =>
    rcases hf : _store_code hashFn st w with ⟨r, st'⟩
    cases r <;> simp [process_msg, store_code, hf, Except.map]
  | instantiate code_hash m salt funds admin =>
    rcases hf : _instantiate vm dbg ac st block sender code_hash m salt funds admin with
      ⟨r, st', tr⟩
    cases r <;> simp [process_msg, instantiate, hf, Except.map]
  | execute contract m funds =>
    rcases hf : _execute vm dbg st block contract sender m funds with ⟨r, st', tr⟩
    cases r <;> simp [process_msg, execute, hf, Except.map]

-- ---------------------------------------------------------------------------
-- C10: decimal rendering / parsing lemmas
-- ---------------------------------------------------------------------------

/-- The value of a little-endian digit list. -/
def valRev : List Nat → Nat
  | [] => 0
  | d :: ds => d + 10 * valRev ds

theorem valRev_natDigitsAux : ∀ fuel n, n ≤ fuel →
    valRev (natDigitsAux fuel n) = n := by
  intro fuel
  induction fuel with
  | zero =>
    intro n hn
    interval_cases n
    rfl
  | succ fuel ih =>
    intro n hn
    cases n with
    | zero => rfl
    | succ k =>
      show valRev ((k + 1) % 10 :: natDigitsAux fuel ((k + 1) / 10)) = k + 1
      have hdiv : (k + 1) / 10 ≤ fuel := by
        have h1 : (k + 1) / 10 < k + 1 := Nat.div_lt_self (Nat.succ_pos k) (by decide)
        omega
      show (k + 1) % 10 + 10 * valRev (natDigitsAux fuel ((k + 1) / 10)) = k + 1
      rw [ih _ hdiv]
      omega

theorem natDigitsAux_lt_ten : ∀ fuel n, ∀ d ∈ natDigitsAux fuel n, d < 10 := by
  intro fuel
  induction fuel with
  | zero =>
    intro n d hd
    cases n <;> simp [natDigitsAux] at hd
  | succ fuel ih =>
    intro n d hd
    cases n with
    | zero => simp [natDigitsAux] at hd
    | succ k =>
      rw [show natDigitsAux (fuel + 1) (k + 1) =
        (k + 1) % 10 :: natDigitsAux fuel ((k + 1) / 10) from rfl] at hd
      rcases List.mem_cons.mp hd with h | h
      · rw [h]; exact Nat.mod_lt _ (by decide)
      · exact ih _ _ h

/-- Every byte of a rendered `Uint128` is an ASCII digit. -/
theorem u128_to_string_digits (n : Nat) :
    ∀ c ∈ u128_to_string n, 48 ≤ c ∧ c ≤ 57 := by
  intro c hc
  unfold u128_to_string at hc
  by_cases hz : n = 0
  · rw [if_pos hz] at hc
    simp at hc
    omega
  · rw [if_neg hz] at hc
    rw [List.mem_map] at hc
    obtain ⟨d, hd, hdc⟩ := hc
    rw [List.mem_reverse] at hd
    have := natDigitsAux_lt_ten n n d hd
    omega

theorem u128_to_string_ne_nil (n : Nat) : u128_to_string n ≠ [] := by
  unfold u128_to_string
  by_cases hz : n = 0
  · rw [if_pos hz]; simp
  · rw [if_neg hz]
    simp only [ne_eq, List.map_eq_nil_iff, List.reverse_eq_nil_iff]
    intro habs
    have := valRev_natDigitsAux n n le_rfl
    rw [show natDigitsRev n = natDigitsAux n n from rfl] at habs
    rw [habs] at this
    exact hz (this.symm ▸ rfl)

theorem valRev_eq_foldr (l : List Nat) :
    List.foldr (fun d a => 10 * a + d) 0 l = valRev l := by
  induction l with
  | nil => rfl
  | cons d ds ih => simp [valRev, ih]; omega

/-- Parsing a rendered `Uint128` recovers the value. -/
theorem u128_from_str_to_string (n : Nat) (hn : n < UINT128_MAX) :
    u128_from_str (u128_to_string n) = some n := by
  have hdig := u128_to_string_digits n
  have hnn := u128_to_string_ne_nil n
  have hall : (u128_to_string n).all isDigitByte = true := by
    rw [List.all_eq_true]
    intro c hc
    have := hdig c hc
    simp [isDigitByte]
    omega
  have hval : digitsVal (u128_to_string n) = n := by
    unfold digitsVal u128_to_string
    by_cases hz : n = 0
    · rw [if_pos hz, hz]
      rfl
    · rw [if_neg hz]
      rw [List.map_reverse, List.foldl_reverse]
      have h1 : ∀ l : List Nat, List.foldr (fun x a => 10 * a + (x - 48)) 0
          (l.map (fun d => d + 48)) = List.foldr (fun d a => 10 * a + d) 0 l := by
        intro l
        induction l with
        | nil => rfl
        | cons d ds ih =>
          simp only [List.map_cons, List.foldr_cons, ih]
          omega
      rw [h1, valRev_eq_foldr]
      exact valRev_natDigitsAux n n le_rfl
  unfold u128_from_str
  rw [if_pos ⟨hnn, hall⟩, hval, if_pos hn]

theorem splitOn_ne_nil (sep : Nat) (s : Str) : splitOn sep s ≠ [] := by
  induction s with
  | nil => simp [splitOn]
  | cons c rest ih =>
    simp only [splitOn]
    cases h : splitOn sep rest with
    | nil => simp
    | cons a as => by_cases hc : c = sep <;> simp [hc]

theorem splitOn_of_not_mem (sep : Nat) (s : Str) (h : sep ∉ s) :
    splitOn sep s = [s] := by
  induction s with
  | nil => rfl
  | cons c rest ih =>
    have hc : c ≠ sep := fun habs => h (habs ▸ List.mem_cons_self c rest)
    have hrest : sep ∉ rest := fun habs => h (List.mem_cons_of_mem _ habs)
    simp only [splitOn]
    rw [ih hrest]
    simp [hc]

theorem splitOn_append (sep : Nat) (p rest : Str) (hp : sep ∉ p) :
    splitOn sep (p ++ sep :: rest) = p :: splitOn sep rest := by
  induction p with
  | nil =>
    show splitOn sep (sep :: rest) = [] :: splitOn sep rest
    simp only [splitOn]
    cases h : splitOn sep rest with
    | nil => exact absurd h (splitOn_ne_nil sep rest)
    | cons a as => simp
  | cons c p' ih =>
    have hc : c ≠ sep := fun habs => hp (habs ▸ List.mem_cons_self c p')
    have hp' : sep ∉ p' := fun habs => hp (List.mem_cons_of_mem _ habs)
    show splitOn sep (c :: (p' ++ sep :: rest)) = (c :: p') :: splitOn sep rest
    simp only [splitOn]
    rw [ih hp']
    simp [hc]

theorem splitOn_joinSep (sep : Nat) : ∀ ps : List Str, ps ≠ [] →
    (∀ p ∈ ps, sep ∉ p) → splitOn sep (joinSep sep ps) = ps := by
  intro ps
  induction ps with
  | nil => intro h; exact absurd rfl h
  | cons p ps' ih =>
    intro _ hfree
    cases ps' with
    | nil =>
      show splitOn sep (joinSep sep [p]) = [p]
      exact splitOn_of_not_mem sep p (hfree p (List.mem_cons_self _ _))
    | cons q ps'' =>
      show splitOn sep (p ++ sep :: joinSep sep (q :: ps'')) = p :: (q :: ps'')
      rw [splitOn_append sep p _ (hfree p (List.mem_cons_self _ _))]
      rw [ih (by simp) (fun r hr => hfree r (List.mem_cons_of_mem _ hr))]

theorem split_once_append (sep : Nat) (p rest : Str) (hp : sep ∉ p) :
    split_once sep (p ++ sep :: rest) = some (p, rest) := by
  induction p with
  | nil => simp [split_once]
  | cons c p' ih =>
    have hc : c ≠ sep := fun habs => hp (habs ▸ List.mem_cons_self c p')
    have hp' : sep ∉ p' := fun habs => hp (List.mem_cons_of_mem _ habs)
    show split_once sep (c :: (p' ++ sep :: rest)) = some (c :: p', rest)
    simp only [split_once]
    rw [ih hp']
    simp [hc]

theorem Coins.get_none_of_all_lt {m₀ : Coins} {d : Str}
    (h : ∀ p ∈ m₀, strLt p.1 d = true) : Coins.get m₀ d = none := by
  induction m₀ with
  | nil => rfl
  | cons kv rest ih =>
    obtain ⟨k, v⟩ := kv
    have hk : strLt k d = true := h (k, v) (List.mem_cons_self _ _)
    have hne : d ≠ k := by
      intro heq
      rw [heq] at hk
      rw [strLt_irrefl] at hk
      exact Bool.false_ne_true hk
    simp only [Coins.get, if_neg hne]
    exact ih fun p hp => h p (List.mem_cons_of_mem _ hp)

theorem Coins.insert_append_of_all_lt {m₀ : Coins} {d : Str} (a : Nat)
    (h : ∀ p ∈ m₀, strLt p.1 d = true) :
    Coins.insert d a m₀ = m₀ ++ [(d, a)] := by
  induction m₀ with
  | nil => rfl
  | cons kv rest ih =>
    obtain ⟨k, v⟩ := kv
    have hk : strLt k d = true := h (k, v) (List.mem_cons_self _ _)
    have hdk : strLt d k = false := strLt_asymm hk
    simp only [Coins.insert, hdk, hk, Bool.false_eq_true, if_false, if_true]
    rw [ih fun p hp => h p (List.mem_cons_of_mem _ hp)]
    rfl

theorem from_str_aux_rebuild : ∀ (m m₀ : Coins),
    Coins.SortedMap (m₀ ++ m) →
    (∀ p ∈ m, 0 < p.2 ∧ p.2 < UINT128_MAX) →
    (∀ p ∈ m, (58 : Nat) ∉ p.1) →
    from_str_aux (m.map (fun coin => coin.1 ++ 58 :: u128_to_string coin.2)) m₀ =
      .ok (m₀ ++ m) := by
  intro m
  induction m with
  | nil =>
    intro m₀ _ _ _
    simp [from_str_aux]
  | cons da rest ih =>
    intro m₀ hsort hamt hden
    obtain ⟨d, a⟩ := da
    have hd58 : (58 : Nat) ∉ d := hden (d, a) (List.mem_cons_self _ _)
    have ha := hamt (d, a) (List.mem_cons_self _ _)
    have hkeys : ∀ p ∈ m₀, strLt p.1 d = true := by
      intro p hp
      have hcross := (List.pairwise_append.mp hsort).2.2 p hp (d, a)
        (List.mem_cons_self _ _)
      exact hcross
    have hget : Coins.get m₀ d = none := Coins.get_none_of_all_lt hkeys
    simp only [List.map_cons, from_str_aux]
    rw [split_once_append 58 d (u128_to_string a) hd58]
    dsimp only
    rw [u128_from_str_to_string a ha.2]
    dsimp only
    rw [if_neg (Nat.pos_iff_ne_zero.mp ha.1)]
    rw [hget]
    simp only [Option.isSome_none, Bool.false_eq_true, if_false]
    rw [Coins.insert_append_of_all_lt a hkeys]
    have hsort' : Coins.SortedMap ((m₀ ++ [(d, a)]) ++ rest) := by
      rw [List.append_assoc]
      simpa using hsort
    rw [ih (m₀ ++ [(d, a)]) hsort'
      (fun p hp => hamt p (List.mem_cons_of_mem _ hp))
      (fun p hp => hden p (List.mem_cons_of_mem _ hp))]
    rw [List.append_assoc]
    rfl

/-- A rendered record contains no `','` byte when its denom doesn't. -/
theorem piece_no_comma {d : Str} {a : Nat} (hd : (44 : Nat) ∉ d) :
    (44 : Nat) ∉ d ++ 58 :: u128_to_string a := by
  intro habs
  rcases List.mem_append.mp habs with h | h
  · exact hd h
  · rcases List.mem_cons.mp h with h | h
    · exact absurd h (by decide)
    · have := u128_to_string_digits a 44 h
      omega

-- ---------------------------------------------------------------------------
-- C10
-- ---------------------------------------------------------------------------

/-- C10 counterexample: the claim quantifies over every non-empty `Coins`
value with no duplicate denoms and no zero amounts, but the round-trip fails
as soon as a denom contains the `','` separator byte (or a `':'`): the map
with the single record `("a,b", 1)` satisfies the claimed premise, yet
`from_str` rejects its `Display` rendering (`"a,b:1"` splits on `','` into a
piece with no `':'`). -/
theorem display_from_str_fails_on_comma_denom :
    Coins.SortedMap [([97, 44, 98], 1)] ∧
    ([([97, 44, 98], 1)] : Coins) ≠ [] ∧
    Coins.from_str (Coins.display [([97, 44, 98], 1)]) = .error .parseCoins := by
  decide

/-- C10 (amended): for every non-empty `Coins` value satisfying the map
invariant — keys strictly sorted (hence duplicate-free), amounts strictly
positive and within the 128-bit range — whose denoms contain neither the
`','` (44) nor the `':'` (58) byte, parsing the `Display` rendering returns
the same value; and the round-trip indeed requires non-emptiness, since
`from_str` rejects the empty string `Display` produces for the empty value. -/
theorem coins_display_from_str_roundtrip (m : Coins)
    (hsort : Coins.SortedMap m) (hne : m ≠ [])
    (hamt : ∀ p ∈ m, 0 < p.2 ∧ p.2 < UINT128_MAX)
    (hden : ∀ p ∈ m, (44 : Nat) ∉ p.1 ∧ (58 : Nat) ∉ p.1) :
    Coins.from_str (Coins.display m) = .ok m ∧
    Coins.from_str (Coins.display Coins.empty) = .error .parseCoins := by
  refine ⟨?_, by decide⟩
  unfold Coins.from_str Coins.display
  rw [splitOn_joinSep 44 (m.map fun coin => coin.1 ++ 58 :: u128_to_string coin.2)
    (by simpa using hne)
    (by
      intro p hp
      rw [List.mem_map] at hp
      obtain ⟨coin, hcoin, hpc⟩ := hp
      rw [← hpc]
      exact piece_no_comma (hden coin hcoin).1)]
  have h := from_str_aux_rebuild m [] (by simpa using hsort) hamt
    (fun p hp => (hden p hp).2)
  simpa using h

/-- C10 at a concrete input: the two-record map `{"a": 5, "b": 123}`
round-trips. -/
theorem coins_display_from_str_roundtrip_witness :
    Coins.from_str (Coins.display [([97], 5), ([98], 123)]) =
      .ok [([97], 5), ([98], 123)] ∧
    Coins.from_str (Coins.display Coins.empty) = .error .parseCoins :=
  coins_display_from_str_roundtrip [([97], 5), ([98], 123)] (by decide)
    (by decide) (by decide) (by decide)

end Grug
